import Mathlib

/-!
Verification development for the EcoTaxa backend (`ecotaxa_back`).

Shallow embedding in Lean 4 of the parts of the Python source involved in the
claims under scrutiny:

* `py/DB/helpers/SQL.py`        — `OrderClause`
* `py/BO/Object.py`             — `ObjectBO._field_to_db_col`
* `py/API_operations/ObjectManager.py` — `cook_order_clause`, `query`, `summary`,
                                  `delete`, `count_in_and_out`, `propagate_classif_changes`
* `py/BO/User.py`               — `USER_PWD_REGEXP` / `UserBO.is_strong_password`,
                                  `UserBO.merge_mru`
* `py/providers/MailProvider.py`— `__init__`, `is_email`, `send_mail`
* `py/API_operations/admin/NightlyJob.py` — `clean_old_jobs`
* `py/BO/Project.py`            — `update_taxo_stats`, `incremental_update_taxo_stats`,
                                  `delete_object_parents`

Python strings are embedded as `String`/`List Char`, Python ints as `Int`/`Nat`,
dicts (which are insertion-ordered) as association lists, DB tables as lists of
row structures, and SQL statements by their row-level semantics.
-/

namespace EcoTaxa

/-! ## Python string helpers -/

/-- Python `needle in hay` on strings: substring containment (`"" in s` is `True`). -/
def pyInList (needle : List Char) : List Char → Bool
  | [] => needle.isPrefixOf []
  | c :: cs => needle.isPrefixOf (c :: cs) || pyInList needle cs

/-- Python `needle in hay` for `String`s. -/
def pyInS (needle hay : String) : Bool := pyInList needle.toList hay.toList

/-- Helper for `s.split(sep, 1)`: split at the first occurrence of `sep`. -/
def pySplit1Aux (sep : Char) (acc : List Char) : List Char → Option (List Char × List Char)
  | [] => none
  | c :: cs => if c = sep then some (acc.reverse, cs) else pySplit1Aux sep (c :: acc) cs

/-- Python `s.split(".", 1)` when unpacked into exactly two variables:
`some (before, after)` when `s` contains a dot, `none` when it does not
(in which case the Python unpacking raises `ValueError`). -/
def pySplit1 (s : String) : Option (String × String) :=
  (pySplit1Aux '.' [] s.toList).map (fun p => (String.mk p.1, String.mk p.2))

/-- Python whitespace characters handled by `str.strip()` (ASCII range). -/
def pyIsSpace (c : Char) : Bool :=
  decide (c ∈ [' ', '\t', '\n', '\r', '\x0b', '\x0c'])

/-- Python `s.strip()`. -/
def pyStrip (s : String) : String :=
  String.mk (((s.toList.dropWhile pyIsSpace).reverse.dropWhile pyIsSpace).reverse)

/-- A Python exception escaping a modelled function. -/
inductive PyErr where
  | indexError
  | valueError
deriving DecidableEq, Repr

/-! ## `py/DB/helpers/SQL.py` — `OrderClause`

An 'order by' clause in SQL: parallel lists of rendered expressions and of the
columns they refer to. -/

structure OrderClause where
  expressions : List String
  columns : List String
deriving DecidableEq, Repr

/-- `OrderClause()` -/
def OrderClause.new : OrderClause := ⟨[], []⟩

/-- `OrderClause.add_expression` from `py/DB/helpers/SQL.py`.
`asc_or_desc` defaults to `"ASC"`; with `invert_nulls_first` the rendered
direction becomes `ASC NULLS FIRST` or `DESC NULLS LAST` (inverting the
PostgreSQL defaults of NULLS LAST for ASC and NULLS FIRST for DESC). -/
def OrderClause.add_expression (self : OrderClause) (tblAlias : Option String)
    (expr : String) (asc_or_desc : Option String) (invert_nulls_first : Bool) :
    OrderClause :=
  let ad := asc_or_desc.getD "ASC"
  let ad := if invert_nulls_first then
              ad ++ (if ad = "ASC" then " NULLS FIRST" else " NULLS LAST")
            else ad
  match tblAlias with
  | some al =>
    { expressions := self.expressions ++ [al ++ "." ++ expr ++ " " ++ ad],
      columns := self.columns ++ [al ++ "." ++ expr] }
  | none =>
    { expressions := self.expressions ++ [expr ++ " " ++ ad],
      columns := self.columns ++ [expr] }

/-- `OrderClause.referenced_columns` (a Python `set`; we keep the list, of which
only membership is ever used by the callers under study). -/
def OrderClause.referenced_columns (self : OrderClause) : List String := self.columns

/-- `OrderClause.get_sql` -/
def OrderClause.get_sql (self : OrderClause) : String :=
  "\nORDER BY " ++ String.intercalate ", " self.expressions

/-- Interpretation of a rendered ORDER BY item: does it place NULL values before
all non-null values?  Per the PostgreSQL documentation quoted in
`ObjectManager.cook_order_clause`: an explicit `NULLS FIRST` does, an explicit
`NULLS LAST` does not, and in the absence of either the default is
`NULLS LAST` when ASC is specified or implied and `NULLS FIRST` when DESC is
specified. -/
def nulls_sort_first_in (rendered_expr : String) : Bool :=
  if pyInS "NULLS FIRST" rendered_expr then true
  else if pyInS "NULLS LAST" rendered_expr then false
  else pyInS "DESC" rendered_expr

/-! ## `py/BO/Object.py` — `ObjectBO._field_to_db_col`

The attribute lists of the ORM row classes are consulted through
`SomeClass.__dict__`; the row classes themselves (`py/DB/Object.py` etc.) are
not under `src/`, so their column lists are modelled from the spec. -/

/-- Modelled from the spec: column names of `ObjectHeader` (table `obj_head`,
`py/DB/Object.py` is not under `src/`); spec §3 lists objid, date/time, lat/lon,
depth bounds, sun position, image count and the classification fields. -/
def ObjectHeader_attrs : List String :=
  ["objid", "acquisid", "orig_id", "object_link", "objdate", "objtime",
   "latitude", "longitude", "depth_min", "depth_max", "sunpos", "n_images",
   "classif_id", "classif_qual", "classif_who", "classif_when",
   "classif_auto_id", "classif_auto_score", "classif_auto_when"]

/-- Modelled from the spec: column names of `Image` (`py/DB/Image.py` is not
under `src/`); spec §3: objid, imgrank ordering, file name and image metadata. -/
def Image_attrs : List String :=
  ["imgid", "objid", "imgrank", "file_name", "orig_file_name",
   "width", "height", "thumb_file_name", "thumb_width", "thumb_height"]

/-- Modelled from the spec: column names of `Taxonomy` (`py/DB/Taxonomy.py` is
not under `src/`); spec §3: id, name, display_name, parent, type, counts. -/
def Taxonomy_attrs : List String :=
  ["id", "parent_id", "name", "display_name", "taxotype", "taxostatus",
   "id_source", "nbrobj", "nbrobjcum", "rename_to"]

/-- `SAMPLE_FREE_COLUMNS` from `src/py/DB/Sample.py`. -/
def SAMPLE_FREE_COLUMNS : Nat := 61

/-- Python `"%02d" % i` for `0 ≤ i ≤ 99`: two-digit zero-padded decimal. -/
def pyPct02d (i : Nat) : String :=
  if i < 10 then "0" ++ toString i else toString i

/-- The free columns `t01`…`t60` installed on `Sample` by the `setattr` loop
after the class body (`src/py/DB/Sample.py`:
`for i in range(1, SAMPLE_FREE_COLUMNS): setattr(Sample, "t%02d" % i, ...)`). -/
def Sample_free_attrs : List String :=
  (List.range (SAMPLE_FREE_COLUMNS - 1)).map (fun i => "t" ++ pyPct02d (i + 1))

/-- Names in `Sample.__dict__`, as consulted by the `name in Sample.__dict__`
membership test (`src/py/DB/Sample.py`): the class-creation housekeeping
entries, `__tablename__`, the six fixed columns, the four methods and the two
dunder methods of the class body, and the free columns `t01`…`t60` added by
the `setattr` loop after the class.  The relationship names (`project`,
`all_acquisitions`) are bare type annotations, hence not class members; they
are installed at runtime by `DB/Relations.py`, which is not under `src/`. -/
def Sample_attrs : List String :=
  ["__module__", "__qualname__", "__annotations__", "__doc__", "__tablename__",
   "sampleid", "projid", "orig_id", "latitude", "longitude",
   "dataportal_descriptor", "pk", "get_orig_id_and_model", "propagate_geo",
   "get_sample_summary", "__str__", "__lt__"] ++ Sample_free_attrs

/-- Modelled from the spec: column names of `Acquisition` (`py/DB/Acquisition.py`
is not under `src/`); spec §3: acquisid, orig_id, parent sample, instrument. -/
def Acquisition_attrs : List String :=
  ["acquisid", "acq_sample_id", "orig_id", "instrument"]

/-- Names in `User.__dict__`, as consulted by the `name in User.__dict__`
membership test (`src/py/DB/User.py`): the class-creation housekeeping
entries, `__tablename__`, the fourteen columns and the three methods of the
class body.  The relationship names (`roles`, `privs_on_projects`,
`classified_objects`, `preferences_for_projects`) are bare type annotations,
hence not class members; they are installed at runtime by `DB/Relations.py`,
which is not under `src/`. -/
def User_attrs : List String :=
  ["__module__", "__qualname__", "__annotations__", "__doc__", "__tablename__",
   "id", "email", "password", "name", "organisation", "status", "status_date",
   "status_admin_comment", "preferences", "country", "usercreationdate",
   "usercreationreason", "mail_status", "mail_status_date",
   "find_users", "has_role", "__str__"]

/-- The per-project free-column mapping (`BO/Mappings.py` `TableMapping`):
only its `tsv_cols_to_real` dict (semantic name → storage column) is consulted
by the functions under study. -/
structure TableMapping where
  tsv_cols_to_real : List (String × String)
deriving DecidableEq, Repr

/-- Dict lookup in `tsv_cols_to_real`. -/
def TableMapping.lookupReal (m : TableMapping) (name : String) : Option String :=
  (m.tsv_cols_to_real.find? (fun p => p.1 = name)).map (fun p => p.2)

/-- `ObjectBO._field_to_db_col` from `py/BO/Object.py`: translate a prefixed
API field name into a DB column expression, `none` when it does not resolve
(including when the field contains no dot, which raises `ValueError` in Python
and is caught by the enclosing `try`). -/
def ObjectBO_field_to_db_col (a_field : String) (mappings : TableMapping) :
    Option String :=
  match pySplit1 a_field with
  | none => none
  | some (prfx, name) =>
    if prfx = "obj" then
      if name ∈ ObjectHeader_attrs then some ("obh." ++ name)
      else if name = "imgcount" then
        some "(SELECT COUNT(img2.imgrank) FROM images img2 WHERE img2.objid = obh.objid) AS imgcount"
      else none
    else if prfx = "fre" then
      match mappings.lookupReal name with
      | some real => some ("obf." ++ real)
      | none => none
    else if prfx = "img" then
      if name ∈ Image_attrs then some a_field else none
    else if prfx = "txo" || prfx = "txp" then
      if name ∈ Taxonomy_attrs then some a_field else none
    else if prfx = "sam" then
      if name ∈ Sample_attrs then some a_field else none
    else if prfx = "acq" then
      if name ∈ Acquisition_attrs then some a_field else none
    else if prfx = "usr" then
      if name ∈ User_attrs then some a_field else none
    else none

/-! ## `py/API_operations/ObjectManager.py` — `cook_order_clause` -/

/-- `ObjectManager.cook_order_clause`: prepare an ORDER BY clause from the
requested field.  A `"-"` first character requests DESC order; columns whose
name contains `"_when"` get `invert_nulls_first`; a disambiguating secondary
sort key is appended (`obf.objfid` for free columns, else `obh.objid` unless
already present).  `order_field[0]` on an empty string raises `IndexError`;
unpacking a dot-free `order_expr` raises `ValueError`. -/
def ObjectManager_cook_order_clause :
    Option String → TableMapping → Except PyErr (Option OrderClause)
  | none, _ => .ok none
  | some f0, mappings =>
    match f0.toList with
    | [] => .error .indexError
    | c :: cs =>
      let asc_desc : Option String := if c = '-' then some "DESC" else none
      let field := if c = '-' then String.mk cs else f0
      match ObjectBO_field_to_db_col field mappings with
      | none => .ok none
      | some order_expr =>
        match pySplit1 order_expr with
        | none => .error .valueError
        | some (tblAlias, order_col) =>
          let ret := OrderClause.new.add_expression (some tblAlias) order_col
            asc_desc (pyInS "_when" order_col)
          let ret :=
            if tblAlias = "obf" then
              ret.add_expression (some "obf") "objfid" asc_desc false
            else if ret.referenced_columns.contains "obh.objid" then ret
            else ret.add_expression (some "obh") "objid" asc_desc false
          .ok (some ret)

/-! ## `py/BO/User.py` — password strength

`USER_PWD_REGEXP = r"^(?:(?=.*[a-z])(?=.*[A-Z])(?=.*[0-9])(?=.*[!@#?%^&*-+])).{8,20}$"`
is embedded by its matching semantics under Python `re.match`. -/

def isAsciiLower (c : Char) : Bool := decide ('a' ≤ c ∧ c ≤ 'z')

def isAsciiUpper (c : Char) : Bool := decide ('A' ≤ c ∧ c ≤ 'Z')

def isAsciiDigit (c : Char) : Bool := decide ('0' ≤ c ∧ c ≤ '9')

/-- The character class `[!@#?%^&*-+]` of `USER_PWD_REGEXP`.  Inside a class,
`*-+` is a range from U+002A to U+002B, i.e. the two characters `*` and `+`;
the character `-` itself is NOT in the class (whereas the human-readable
`USER_PWD_REGEXP_DESCRIPTION` string in `BO/User.py` advertises `#?!@%^&*-`). -/
def isPwdSpecial (c : Char) : Bool :=
  decide (c ∈ ['!', '@', '#', '?', '%', '^', '&', '*', '+'])

/-- Python lookahead `(?=.*[cls])` evaluated at position 0: some character
satisfying `p` occurs in `s` preceded only by non-newline characters
(`.` does not match a newline without `re.DOTALL`). -/
def lookaheadDotStar (p : Char → Bool) (s : List Char) : Bool :=
  (s.takeWhile (fun c => c != '\n')).any p

/-- Python `.{8,20}$` matched from position 0: between 8 and 20 non-newline
characters followed by the end of the string, or by a single final newline
(`$` also matches just before a trailing newline without `re.MULTILINE`). -/
def dotRange8to20ToEnd (s : List Char) : Bool :=
  (decide (8 ≤ s.length) && decide (s.length ≤ 20) && s.all (fun c => c != '\n')) ||
  (decide (9 ≤ s.length) && decide (s.length ≤ 21) && (s.getLast? == some '\n') &&
    s.dropLast.all (fun c => c != '\n'))

/-- `UserBO.is_strong_password`: `bool(re.match(USER_PWD_REGEXP, password))` —
the four lookaheads at position 0 followed by `.{8,20}$`. -/
def UserBO_is_strong_password (password : String) : Bool :=
  let s := password.toList
  lookaheadDotStar isAsciiLower s && lookaheadDotStar isAsciiUpper s &&
  lookaheadDotStar isAsciiDigit s && lookaheadDotStar isPwdSpecial s &&
  dotRange8to20ToEnd s

/-! ## `py/BO/User.py` — `UserBO.merge_mru`

Python dicts are insertion-ordered; they are embedded as association lists where
assignment to an existing key keeps its position and updates its value, and a
new key is appended. -/

/-- Python `d[k] = v` on an insertion-ordered dict. -/
def pyDictAssign (d : List (Int × Int)) (k v : Int) : List (Int × Int) :=
  if d.any (fun p => decide (p.1 = k)) then
    d.map (fun p => if p.1 = k then (k, v) else p)
  else d ++ [(k, v)]

/-- `UserBO.NB_MRU_KEPT` -/
def UserBO_NB_MRU_KEPT : Nat := 10

/-- `UserBO.merge_mru`: `bef_tbl` maps each id of `before` to `pos+1`, `inc_tbl`
maps each id of `incoming` to `-pos`, `bef_tbl.update(inc_tbl)` merges them,
and the keys are listed in ascending value order (Python `sorted` is stable),
truncated to `NB_MRU_KEPT`. -/
def UserBO_merge_mru (before incoming : List Int) : List Int :=
  let bef_tbl := before.enum.foldl
    (fun d p => pyDictAssign d p.2 ((p.1 : Int) + 1)) []
  let inc_tbl := incoming.enum.foldl
    (fun d p => pyDictAssign d p.2 (-(p.1 : Int))) []
  let merged := inc_tbl.foldl (fun d p => pyDictAssign d p.1 p.2) bef_tbl
  ((merged.mergeSort (fun a b => decide (a.2 ≤ b.2))).map (fun p => p.1)).take
    UserBO_NB_MRU_KEPT

/-- Position of the last occurrence of `x` in `l` (`0` when absent): the
position a Python dict comprehension retains for a repeated key. -/
def lastIdxIn (l : List Int) (x : Int) : Nat :=
  l.enum.foldl (fun acc p => if p.2 = x then p.1 else acc) 0

/-- Lookup in an embedded Python dict. -/
def dictLookup (d : List (Int × Int)) (q : Int) : Option Int :=
  (d.find? (fun p => decide (p.1 = q))).map (fun p => p.2)

/-- Key list of an embedded Python dict. -/
def dictKeys (d : List (Int × Int)) : List Int := d.map (fun p => p.1)

/-! ## `py/providers/MailProvider.py`

`is_email` compiles the regular expression
`([A-Za-z0-9]+[.-_])*[A-Za-z0-9]+@[A-Za-z0-9-]+(\.[A-Z|a-z]{2,})+` and tests it
with `re.fullmatch`.  Regular expressions without backreferences recognise
regular languages, embedded here through Brzozowski derivatives. -/

/-- Regular expressions over `Char`, character classes as predicates. -/
inductive Re where
  | emp
  | eps
  | cls (p : Char → Bool)
  | cat (a b : Re)
  | alt (a b : Re)
  | star (a : Re)

/-- Does `r` accept the empty string? -/
def Re.nullable : Re → Bool
  | .emp => false
  | .eps => true
  | .cls _ => false
  | .cat a b => a.nullable && b.nullable
  | .alt a b => a.nullable || b.nullable
  | .star _ => true

/-- Brzozowski derivative of `r` by character `c`. -/
def Re.deriv (c : Char) : Re → Re
  | .emp => .emp
  | .eps => .emp
  | .cls p => if p c then .eps else .emp
  | .cat a b =>
    if a.nullable then .alt (.cat (a.deriv c) b) (b.deriv c)
    else .cat (a.deriv c) b
  | .alt a b => .alt (a.deriv c) (b.deriv c)
  | .star a => .cat (a.deriv c) (.star a)

/-- Whole-string match (the semantics of `re.fullmatch`). -/
def Re.matches (r : Re) (s : List Char) : Bool :=
  (s.foldl (fun r c => r.deriv c) r).nullable

/-- `r+` -/
def Re.plus (r : Re) : Re := .cat r (.star r)

/-- `r{2,}` -/
def Re.twoPlus (r : Re) : Re := .cat r (.cat r (.star r))

/-- A single literal character. -/
def Re.chr (c : Char) : Re := .cls (fun x => x == c)

/-- `[A-Za-z0-9]` -/
def clsAlnum : Re := .cls (fun c => isAsciiUpper c || isAsciiLower c || isAsciiDigit c)

/-- `[.-_]`: with `-` in the middle this is the range U+002E..U+005F. -/
def clsDotToUnderscore : Re := .cls (fun c => decide ('.' ≤ c ∧ c ≤ '_'))

/-- `[A-Za-z0-9-]`: the trailing `-` is literal. -/
def clsAlnumDash : Re :=
  .cls (fun c => isAsciiUpper c || isAsciiLower c || isAsciiDigit c || c == '-')

/-- `[A-Z|a-z]`: two ranges plus a literal `|`. -/
def clsLetterOrBar : Re := .cls (fun c => isAsciiUpper c || isAsciiLower c || c == '|')

/-- The regular expression of `MailProvider.is_email`:
`([A-Za-z0-9]+[.-_])*[A-Za-z0-9]+@[A-Za-z0-9-]+(\.[A-Z|a-z]{2,})+`. -/
def MailProvider_email_re : Re :=
  .cat (.star (.cat (Re.plus clsAlnum) clsDotToUnderscore))
    (.cat (Re.plus clsAlnum)
      (.cat (Re.chr '@')
        (.cat (Re.plus clsAlnumDash)
          (Re.plus (.cat (Re.chr '.') (Re.twoPlus clsLetterOrBar))))))

/-- `MailProvider.is_email`: `re.fullmatch(regex, email) is not None`. -/
def MailProvider_is_email (email : String) : Bool :=
  Re.matches MailProvider_email_re email.toList

/-- The state built by `MailProvider.__init__`. `senderaccount = none` models
the Python attribute NOT having been set at all (the constructor assigns
`self.senderaccount` only when the account list has length 4 and its first
element is an email address; there is no `else` branch). -/
structure MailProviderState where
  senderaccount : Option (List String)
  account_activate_email : String

/-- `MailProvider.__init__` -/
def MailProvider_init (senderaccount : List String)
    (account_activate_email : String) : MailProviderState :=
  if senderaccount.length = 4 ∧ MailProvider_is_email (senderaccount.headD "") then
    ⟨some senderaccount, account_activate_email⟩
  else
    ⟨none, account_activate_email⟩

/-- Outcome of the SMTP dialogue (external system). -/
inductive SmtpOutcome where
  | delivered
  | recipientsRefused
  | otherError
deriving DecidableEq, Repr

/-- How a call to `MailProvider.send_mail` terminates. -/
inductive SendMailResult where
  | sentOk
  | silentNoop
  | http422 (detail : String)
  | attributeError
deriving DecidableEq, Repr

/-- `MailProvider.send_mail`.  Control flow from the source:
* reading `self.senderaccount` on an instance where `__init__` did not set it
  raises `AttributeError` (the guard `if self.senderaccount is None: return`
  never fires, because when the attribute exists it holds a list);
* `if not self.is_email(email): HTTPException(...)` CONSTRUCTS the exception
  and discards it — nothing is raised and execution continues;
* `smtplib.SMTPRecipientsRefused` raises an HTTP 422 which the enclosing bare
  `except:` swallows, re-raising HTTP 422 with the `mail not sent` detail, the
  same as every other SMTP failure. -/
def MailProvider_send_mail (st : MailProviderState) (email : String)
    (msg : String) (smtp : SmtpOutcome) : SendMailResult :=
  match st.senderaccount with
  | none => .attributeError
  | some acct =>
    let _unraised_invalid_recipient := !(MailProvider_is_email email)
    let senderemail := pyStrip (acct.headD "")
    match smtp with
    | .delivered => .sentOk
    | .recipientsRefused =>
      .http422 ("mail not sent from:" ++ senderemail ++ " to:" ++ email
        ++ " message:" ++ msg)
    | .otherError =>
      .http422 ("mail not sent from:" ++ senderemail ++ " to:" ++ email
        ++ " message:" ++ msg)

/-! ## `py/API_operations/ObjectManager.py` — `query` and `summary`, security part

`ProjectFiltersDict` is a Python dict from filter names to values; the services
overwrite `filters["statusfilter"] = "V"` for anonymous callers before handing
the dict to `DescribedObjectSet` and the SQL machinery.  That downstream part
(`BO/ObjectSet.py`, not under `src/`) is abstracted as an explicit function
argument `rest` of everything the source passes it: the validated project, the
effective user id and the effective filter dict. -/

abbrev ProjectFiltersDict : Type := String → Option String

/-- Python `filters["statusfilter"] = "V"` (dict item assignment). -/
def pyFiltersAssign (f : ProjectFiltersDict) (k v : String) : ProjectFiltersDict :=
  fun q => if q = k then some v else f q

/-- `ObjectManager.query`, security phase as in the source: anonymous callers
go through `RightsBO.anonymous_wants` (modelled as a partial map defined on
publicly readable projects) and get `statusfilter` forced to `"V"` with user id
`-1`; authenticated callers go through `RightsBO.user_wants` with the filters
passed through unchanged. -/
def ObjectManager_query_model (R : Type)
    (anonymous_wants : Int → Option Int)
    (user_wants : Int → Int → Option (Int × Int))
    (rest : Int → Int → ProjectFiltersDict → R)
    (current_user_id : Option Int) (proj_id : Int)
    (filters : ProjectFiltersDict) : Except String R :=
  match current_user_id with
  | none =>
    match anonymous_wants proj_id with
    | none => .error "Not authorized"
    | some prj => .ok (rest prj (-1) (pyFiltersAssign filters "statusfilter" "V"))
  | some uid =>
    match user_wants uid proj_id with
    | none => .error "Not authorized"
    | some p => .ok (rest p.2 p.1 filters)

/-- `ObjectManager.summary`, security phase (duplicated in the source, cf. its
`TODO: Dup code` remark). -/
def ObjectManager_summary_model (R : Type)
    (anonymous_wants : Int → Option Int)
    (user_wants : Int → Int → Option (Int × Int))
    (rest : Int → Int → ProjectFiltersDict → R)
    (current_user_id : Option Int) (proj_id : Int)
    (filters : ProjectFiltersDict) : Except String R :=
  match current_user_id with
  | none =>
    match anonymous_wants proj_id with
    | none => .error "Not authorized"
    | some prj => .ok (rest prj (-1) (pyFiltersAssign filters "statusfilter" "V"))
  | some uid =>
    match user_wants uid proj_id with
    | none => .error "Not authorized"
    | some p => .ok (rest p.2 p.1 filters)

/-! ## `py/API_operations/admin/NightlyJob.py` — `clean_old_jobs` -/

/-- A row of the `job` table, restricted to the columns `clean_old_jobs` reads;
`creation_date` in days on an arbitrary origin. -/
structure DbJob where
  id : Int
  creation_date : Int
  state : String
deriving DecidableEq, Repr

/-- `NightlyJobService.clean_old_jobs`: ids of the jobs that get archived.
Two queries, both filtered on `Job.id > 0`: creation date before `today - 30
days` whatever the state, and creation date before `today - 7 days` with state
`"F"`; their set union is cleaned. -/
def NightlyJobService_clean_old_jobs (today : Int) (jobs : List DbJob) : List Int :=
  let thirty_days_ago := today - 30
  let old_jobs := (jobs.filter (fun j =>
    decide (0 < j.id) && decide (j.creation_date < thirty_days_ago))).map (fun j => j.id)
  let one_week_ago := today - 7
  let old_jobs_2 := (jobs.filter (fun j =>
    decide (0 < j.id) && decide (j.creation_date < one_week_ago)
      && (j.state == "F"))).map (fun j => j.id)
  (old_jobs ++ old_jobs_2).dedup

/-! ## `py/API_operations/ObjectManager.py` — `delete` -/

/-- What `EnumeratedObjectSet.delete` hands back (`BO/ObjectSet.py` is not under
`src/`; modelled from the spec: the DB-side deletion runs in chunks, feeding
image file paths to the background `VaultRemover`, and returns the number of
deleted objects, the number of deleted image rows, and the file list). -/
structure ObjectSetDeleteResult where
  nb_objs : Nat
  nb_img_rows : Nat
  img_files : List String

/-- `ObjectManager.delete`, result shape: the source returns
`nb_objs, 0, nb_img_rows, len(img_files)` — the second component is the
literal `0`. -/
def ObjectManager_delete_result (d : ObjectSetDeleteResult) :
    Nat × Nat × Nat × Nat :=
  (d.nb_objs, 0, d.nb_img_rows, d.img_files.length)

/-! ## `py/BO/Project.py` — `delete_object_parents` -/

/-- `ProjectBO.delete_object_parents`: `ret` receives `gone_acqs`, then
`gone_sams`, then `gone_acqs` again (the two `rowcount`s of the acquisition and
sample bulk deletes). -/
def ProjectBO_delete_object_parents (gone_acqs gone_sams : Int) : List Int :=
  [] ++ [gone_acqs] ++ [gone_sams] ++ [gone_acqs]

/-! ## `py/BO/Project.py` — taxonomy statistics, full and incremental

A single project's objects are a list of rows; `projects_taxo_stat` restricted
to that project is a list of per-taxon count rows.  SQL statements are embedded
by their row-level semantics. -/

/-- `classif_qual` values `V`/`D`/`P` (`CLASSIF_QUALS` in `DB/Object.py`). -/
inductive Qual where
  | V
  | D
  | P
deriving DecidableEq, Repr

/-- An `obj_head` row restricted to the columns the statistics code reads. -/
structure ObjRow where
  objid : Int
  classif_id : Option Int
  classif_qual : Option Qual
deriving DecidableEq, Repr

/-- `COALESCE(obh.classif_id, -1)` -/
def effClassifId (o : ObjRow) : Int := o.classif_id.getD (-1)

/-- A `projects_taxo_stat` row for one project: taxon id and the four counts. -/
structure PTSRow where
  id : Int
  nbr : Int
  nbr_v : Int
  nbr_d : Int
  nbr_p : Int
deriving DecidableEq, Repr

/-- `COUNT(*)` over the objects whose coalesced classification id is `cid`. -/
def cntAll (objs : List ObjRow) (cid : Int) : Nat :=
  (objs.filter (fun o => decide (effClassifId o = cid))).length

/-- `COUNT(CASE WHEN obh.classif_qual = q THEN 1 END)` over the `cid` group. -/
def cntQ (objs : List ObjRow) (cid : Int) (q : Qual) : Nat :=
  (objs.filter (fun o => decide (effClassifId o = cid)
    && (o.classif_qual == some q))).length

/-- The aggregate row the `GROUP BY` produces for taxon `cid` over `objs`:
`COUNT(*)` plus the three conditional counts on `classif_qual`. -/
def statRowFor (objs : List ObjRow) (cid : Int) : PTSRow :=
  ⟨cid, (cntAll objs cid : Int), (cntQ objs cid .V : Int),
   (cntQ objs cid .D : Int), (cntQ objs cid .P : Int)⟩

/-- Specification-side view of one project/taxon pair: the row a full group-by
would produce, `none` when the taxon has no objects (no group). -/
def statsOf (objs : List ObjRow) (cid : Int) : Option PTSRow :=
  if cntAll objs cid = 0 then none else some (statRowFor objs cid)

/-- Rows produced by
`SELECT COALESCE(classif_id,-1), COUNT(*), ... GROUP BY classif_id` over `objs`
(one row per coalesced classification id present; the project's objects never
carry a literal classification id `-1`, it is a foreign key into `taxonomy`). -/
def groupStatRows (objs : List ObjRow) : List PTSRow :=
  ((objs.map effClassifId).dedup).map (statRowFor objs)

/-- `ProjectBO.update_taxo_stats`: `DELETE` of the project's rows then `INSERT`
of the full per-taxon aggregation of its objects. -/
def ProjectBO_update_taxo_stats (objs : List ObjRow) : List PTSRow :=
  groupStatRows objs

/-- `SELECT ... FROM projects_taxo_stat WHERE projid = :prj AND id = :cid`. -/
def ptsFind (pts : List PTSRow) (cid : Int) : Option PTSRow :=
  pts.find? (fun r => decide (r.id = cid))

/-- One value of `ChangeTypeT`: the dict `{"n": .., "V": .., "D": .., "P": ..}`
of signed deltas for one taxon. -/
structure ChgBucket where
  n : Int
  v : Int
  d : Int
  p : Int
deriving DecidableEq, Repr

/-- `ChangeTypeT`: Python dict classif_id → delta bucket (insertion-ordered,
keys unique). -/
abbrev ChangeMapT : Type := List (Int × ChgBucket)

/-- Dict lookup in a `ChangeMapT`. -/
def chgFind (m : ChangeMapT) (cid : Int) : Option ChgBucket :=
  (m.find? (fun p => decide (p.1 = cid))).map (fun p => p.2)

/-- `changes_for_id["n"] += inc` plus
`if qualif in CLASSIF_QUALS: changes_for_id[qualif] += inc`. -/
def bucketAdd (b : ChgBucket) (q : Option Qual) (inc : Int) : ChgBucket :=
  let b := { b with n := b.n + inc }
  match q with
  | some .V => { b with v := b.v + inc }
  | some .D => { b with d := b.d + inc }
  | some .P => { b with p := b.p + inc }
  | none => b

/-- `ObjectManager.count_in_and_out`: `setdefault` the bucket for the (coalesced
to `-1`) id, then add `inc_or_dec` to `n` and to the qualifier's counter. -/
def ObjectManager_count_in_and_out (m : ChangeMapT) (classif_id : Option Int)
    (q : Option Qual) (inc : Int) : ChangeMapT :=
  let key := classif_id.getD (-1)
  match m.find? (fun p => decide (p.1 = key)) with
  | some _ => m.map (fun p => if p.1 = key then (p.1, bucketAdd p.2 q inc) else p)
  | none => m ++ [(key, bucketAdd ⟨0, 0, 0, 0⟩ q inc)]

/-- The `INSERT INTO projects_taxo_stat ... WHERE COALESCE(obh.classif_id,-1) =
ANY(:ids) GROUP BY obh.classif_id` of `incremental_update_taxo_stats`: group
rows over the objects whose coalesced id is among `ids_not_in_db`. -/
def insertedStatRows (objs : List ObjRow) (ids_not_in_db : List Int) : List PTSRow :=
  groupStatRows (objs.filter (fun o => decide (effClassifId o ∈ ids_not_in_db)))

/-- The body of the `for classif_id, chg in collated_changes.items()` loop of
`incremental_update_taxo_stats`, acting on the accumulated table `acc`:
skip freshly inserted ids; `DELETE` the row when the pre-existing `nbr`
(read into `ids_in_db` BEFORE the loop, hence looked up in `pts0`) plus the
delta reaches 0; otherwise `UPDATE` by adding the four deltas.  The `none`
branch of the lookup would be a Python `KeyError`, but is unreachable: every
key of the map is in `needed_ids`, so a key not in `ids_not_in_db` has a row. -/
def applyOneDelta (pts0 : List PTSRow) (ids_not_in_db : List Int)
    (acc : List PTSRow) (kv : Int × ChgBucket) : List PTSRow :=
  if kv.1 ∈ ids_not_in_db then acc
  else
    match ptsFind pts0 kv.1 with
    | none => acc
    | some r =>
      if r.nbr + kv.2.n = 0 then acc.filter (fun x => decide (x.id ≠ kv.1))
      else acc.map (fun x =>
        if x.id = kv.1 then
          ⟨x.id, x.nbr + kv.2.n, x.nbr_v + kv.2.v, x.nbr_d + kv.2.d,
           x.nbr_p + kv.2.p⟩
        else x)

/-- `ProjectBO.incremental_update_taxo_stats` on the project's stat table
`pts`, with `objs` the project's objects at call time (the classification
changes have already been applied to the DB when it runs): insert aggregate
rows for the never-seen ids, then apply the signed deltas, deleting a row
whose count reaches zero. -/
def ProjectBO_incremental_update_taxo_stats (objs : List ObjRow)
    (pts : List PTSRow) (collated_changes : ChangeMapT) : List PTSRow :=
  let needed_ids := collated_changes.map (fun p => p.1)
  let ids_not_in_db := needed_ids.filter (fun i => (ptsFind pts i).isNone)
  let pts1 := pts ++ insertedStatRows objs ids_not_in_db
  collated_changes.foldl (applyOneDelta pts ids_not_in_db) pts1

/-- Modelled from the spec: one object's classification change, as applied by
`EnumeratedObjectSet.classify_validate` / `classify_auto` (`BO/ObjectSet.py` is
not under `src/`): the object's `classif_id`/`classif_qual` are set to the new
values and the (previous → new) pair is recorded for stats propagation. -/
structure ClassifUpd where
  objid : Int
  new_id : Option Int
  new_qual : Option Qual
deriving DecidableEq, Repr

/-- The classified object: `classif_id`/`classif_qual` replaced by the new
values. -/
def updObj (o : ObjRow) (u : ClassifUpd) : ObjRow :=
  { o with classif_id := u.new_id, classif_qual := u.new_qual }

/-- Modelled from the spec: apply one classification change to the object
table (the `UPDATE obj_head SET classif_id = ..., classif_qual = ... WHERE
objid = ...`). -/
def applyClassif (objs : List ObjRow) (u : ClassifUpd) : List ObjRow :=
  objs.map (fun o => if o.objid = u.objid then updObj o u else o)

/-- One step of a classification batch: read the object's current
classification, collate the `-1`/`+1` deltas exactly as
`ObjectManager.propagate_classif_changes` does through `count_in_and_out`
(decrement what was before, increment what arrives), and apply the change.
An id matching no object changes nothing. -/
def classifyStep (st : List ObjRow × ChangeMapT) (u : ClassifUpd) :
    List ObjRow × ChangeMapT :=
  match st.1.find? (fun o => decide (o.objid = u.objid)) with
  | none => st
  | some o =>
    let m := ObjectManager_count_in_and_out st.2 o.classif_id o.classif_qual (-1)
    let m := ObjectManager_count_in_and_out m u.new_id u.new_qual 1
    (applyClassif st.1 u, m)

/-- A batch of classification changes (one `classify_set`-like call): the
updated object table and the collated `ChangeTypeT` map. -/
def classifyBatch (objs : List ObjRow) (upds : List ClassifUpd) :
    List ObjRow × ChangeMapT :=
  upds.foldl classifyStep (objs, [])

/-- A classification batch followed by
`ProjectBO.incremental_update_taxo_stats` on the collated changes (the
`propagate_classif_changes` path; with an empty change map the incremental
update is the identity, matching the `rollback` branch). -/
def classifyAndPropagate (st : List ObjRow × List PTSRow)
    (upds : List ClassifUpd) : List ObjRow × List PTSRow :=
  let objs2 := (classifyBatch st.1 upds).1
  let collated := (classifyBatch st.1 upds).2
  (objs2, ProjectBO_incremental_update_taxo_stats objs2 st.2 collated)

/-- A project history: start from objects `objs0` with a freshly recomputed
stat table, then run every batch through the incremental path. -/
def runClassifications (objs0 : List ObjRow) (batches : List (List ClassifUpd)) :
    List ObjRow × List PTSRow :=
  batches.foldl classifyAndPropagate (objs0, ProjectBO_update_taxo_stats objs0)

/-- The bucket of signed deltas recorded for `cid`, zero when absent. -/
def chgDelta (m : ChangeMapT) (cid : Int) : ChgBucket :=
  (chgFind m cid).getD ⟨0, 0, 0, 0⟩

/-- Effect of the delta-application loop body for the key `cid` carrying bucket
`b` on the looked-up row (specification-side restatement of `applyOneDelta`
seen through `ptsFind`). -/
def deltaEffect (pts0 : List PTSRow) (ids_not_in_db : List Int) (cid : Int)
    (b : ChgBucket) (v : Option PTSRow) : Option PTSRow :=
  if cid ∈ ids_not_in_db then v
  else
    match ptsFind pts0 cid with
    | none => v
    | some r =>
      if r.nbr + b.n = 0 then none
      else v.map (fun x => ⟨x.id, x.nbr + b.n, x.nbr_v + b.v, x.nbr_d + b.d,
        x.nbr_p + b.p⟩)

/-- The classification-change batch leaves every taxon's four counters shifted
by exactly the collated delta bucket (zero for untouched taxa). -/
def countsShifted (objs0 objs : List ObjRow) (cid : Int) (b : ChgBucket) : Prop :=
  (cntAll objs cid : Int) = (cntAll objs0 cid : Int) + b.n ∧
  (cntQ objs cid .V : Int) = (cntQ objs0 cid .V : Int) + b.v ∧
  (cntQ objs cid .D : Int) = (cntQ objs0 cid .D : Int) + b.d ∧
  (cntQ objs cid .P : Int) = (cntQ objs0 cid .P : Int) + b.p

/-- Invariant tying a collated change map to the object tables before and
after a batch. -/
def batchInv (objs0 objs : List ObjRow) (m : ChangeMapT) : Prop :=
  ∀ cid, countsShifted objs0 objs cid (chgDelta m cid)

/-- Well-formed object table: `objid` is the primary key, and `classif_id` is a
foreign key into `taxonomy` so the sentinel `-1` (reserved by the code for
"unclassified") never occurs as a stored value. -/
def WFObjs (objs : List ObjRow) : Prop :=
  (objs.map (fun o => o.objid)).Nodup ∧ ∀ o ∈ objs, o.classif_id ≠ some (-1)

/-- Well-formed classification change: the new id is a taxonomy id or `None`,
never the sentinel `-1`. -/
def WFUpd (u : ClassifUpd) : Prop := u.new_id ≠ some (-1)

/-! ## Supporting lemmas -/

theorem str_app_asc (x : String) :
    x ++ " " ++ "ASC NULLS FIRST" = x ++ " ASC NULLS FIRST" := by
  rw [String.append_assoc]
  rfl

theorem str_app_desc (x : String) :
    x ++ " " ++ "DESC NULLS LAST" = x ++ " DESC NULLS LAST" := by
  rw [String.append_assoc]
  rfl

theorem dictLookup_nil (q : Int) : dictLookup [] q = none := rfl

theorem dictLookup_cons_pos (a : Int × Int) (d : List (Int × Int)) (q : Int)
    (h : a.1 = q) : dictLookup (a :: d) q = some a.2 := by
  rw [dictLookup, List.find?_cons_of_pos _ (by simpa using h)]
  rfl

theorem dictLookup_cons_neg (a : Int × Int) (d : List (Int × Int)) (q : Int)
    (h : ¬ a.1 = q) : dictLookup (a :: d) q = dictLookup d q := by
  rw [dictLookup, List.find?_cons_of_neg _ (by simpa using h)]
  rfl

theorem dictLookup_mapAssign (k v q : Int) (hqk : ¬ q = k) (d : List (Int × Int)) :
    dictLookup (d.map (fun p => if p.1 = k then (k, v) else p)) q = dictLookup d q := by
  induction d with
  | nil => rfl
  | cons a d ih =>
    by_cases ha : a.1 = k
    · rw [List.map_cons, if_pos ha,
        dictLookup_cons_neg _ _ _ (fun h => hqk h.symm),
        dictLookup_cons_neg _ _ _ (fun h => hqk (ha ▸ h).symm), ih]
    · rw [List.map_cons, if_neg ha]
      by_cases haq : a.1 = q
      · rw [dictLookup_cons_pos _ _ _ haq, dictLookup_cons_pos _ _ _ haq]
      · rw [dictLookup_cons_neg _ _ _ haq, dictLookup_cons_neg _ _ _ haq, ih]

theorem dictLookup_assign (d : List (Int × Int)) (k v q : Int) :
    dictLookup (pyDictAssign d k v) q = if q = k then some v else dictLookup d q := by
  induction d with
  | nil =>
    simp only [pyDictAssign, List.any_nil, Bool.false_eq_true, if_false,
      List.nil_append]
    by_cases hq : q = k
    · rw [if_pos hq, dictLookup_cons_pos _ _ _ hq.symm]
    · rw [if_neg hq, dictLookup_cons_neg _ _ _ (fun h => hq h.symm), dictLookup_nil]
  | cons a d ih =>
    by_cases ha : a.1 = k
    · have hany : ((a :: d).any (fun p => decide (p.1 = k))) = true := by
        simp [List.any_cons, ha]
      simp only [pyDictAssign, hany, if_true, List.map_cons, if_pos ha]
      by_cases hq : q = k
      · rw [if_pos hq, dictLookup_cons_pos _ _ _ hq.symm]
      · rw [if_neg hq, dictLookup_cons_neg _ _ _ (fun h => hq h.symm),
          dictLookup_mapAssign k v q hq d,
          dictLookup_cons_neg _ _ _ (fun h => hq ((ha.symm.trans h).symm ▸ rfl))]
    · have hany : ((a :: d).any (fun p => decide (p.1 = k)))
          = (d.any (fun p => decide (p.1 = k))) := by
        simp [List.any_cons, ha]
      by_cases had : (d.any (fun p => decide (p.1 = k))) = true
      · simp only [pyDictAssign, hany, had, if_true, List.map_cons, if_neg ha] at ih ⊢
        by_cases haq : a.1 = q
        · have hqk : ¬ q = k := fun h => ha (by rw [haq, h])
          rw [dictLookup_cons_pos _ _ _ haq, if_neg hqk,
            dictLookup_cons_pos _ _ _ haq]
        · rw [dictLookup_cons_neg _ _ _ haq, ih]
          by_cases hq : q = k
          · rw [if_pos hq, if_pos hq]
          · rw [if_neg hq, if_neg hq, dictLookup_cons_neg _ _ _ haq]
      · have hadf : (d.any (fun p => decide (p.1 = k))) = false :=
          Bool.eq_false_iff.mpr had
        simp only [pyDictAssign, hany, hadf, Bool.false_eq_true, if_false,
          List.cons_append] at ih ⊢
        by_cases haq : a.1 = q
        · have hqk : ¬ q = k := fun h => ha (by rw [haq, h])
          rw [dictLookup_cons_pos _ _ _ haq, if_neg hqk,
            dictLookup_cons_pos _ _ _ haq]
        · rw [dictLookup_cons_neg _ _ _ haq, ih]
          by_cases hq : q = k
          · rw [if_pos hq, if_pos hq]
          · rw [if_neg hq, if_neg hq, dictLookup_cons_neg _ _ _ haq]

theorem dictLookup_isSome_iff (d : List (Int × Int)) (q : Int) :
    (dictLookup d q).isSome = true ↔ q ∈ dictKeys d := by
  induction d with
  | nil => simp [dictLookup_nil, dictKeys]
  | cons a d ih =>
    by_cases ha : a.1 = q
    · simp [dictLookup_cons_pos _ _ _ ha, dictKeys, ha]
    · rw [dictLookup_cons_neg _ _ _ ha]
      simp only [dictKeys, List.map_cons, List.mem_cons]
      rw [ih]
      simp only [dictKeys]
      constructor
      · exact fun h => Or.inr h
      · rintro (h | h)
        · exact absurd h.symm ha
        · exact h

theorem dictLookup_of_mem (d : List (Int × Int)) (hnd : (dictKeys d).Nodup)
    (p : Int × Int) (hp : p ∈ d) : dictLookup d p.1 = some p.2 := by
  induction d with
  | nil => simp at hp
  | cons a d ih =>
    simp only [dictKeys, List.map_cons, List.nodup_cons] at hnd
    rcases List.mem_cons.mp hp with h | h
    · subst h
      exact dictLookup_cons_pos _ _ _ rfl
    · have hne : ¬ a.1 = p.1 := by
        intro hcon
        exact hnd.1 (hcon ▸ List.mem_map_of_mem (fun x => x.1) h)
      rw [dictLookup_cons_neg _ _ _ hne]
      exact ih hnd.2 h

theorem dictKeys_assign_keeps (d : List (Int × Int)) (k v : Int)
    (h : d.any (fun p => decide (p.1 = k)) = true) :
    dictKeys (pyDictAssign d k v) = dictKeys d := by
  rw [pyDictAssign, if_pos h, dictKeys, dictKeys, List.map_map]
  apply List.map_congr_left
  intro p _
  by_cases hp : p.1 = k
  · simp [hp]
  · simp [hp]

theorem dictKeys_assign_new (d : List (Int × Int)) (k v : Int)
    (h : ¬ d.any (fun p => decide (p.1 = k)) = true) :
    dictKeys (pyDictAssign d k v) = dictKeys d ++ [k] := by
  rw [pyDictAssign, if_neg h, dictKeys, dictKeys, List.map_append]
  rfl

theorem dictKeys_assign_nodup (d : List (Int × Int)) (k v : Int)
    (h : (dictKeys d).Nodup) : (dictKeys (pyDictAssign d k v)).Nodup := by
  by_cases hany : d.any (fun p => decide (p.1 = k)) = true
  · rw [dictKeys_assign_keeps d k v hany]
    exact h
  · rw [dictKeys_assign_new d k v hany]
    rw [List.nodup_append]
    refine ⟨h, List.nodup_singleton k, ?_⟩
    intro x hx hk
    rcases List.mem_singleton.mp hk with rfl
    rcases List.mem_map.mp hx with ⟨p, hp, hpk⟩
    exact hany (List.any_eq_true.mpr ⟨p, hp, by simpa using hpk⟩)

theorem lastIdxIn_concat (l : List Int) (x q : Int) :
    lastIdxIn (l ++ [x]) q = if x = q then l.length else lastIdxIn l q := by
  rw [lastIdxIn, List.enum_append, List.foldl_append]
  rw [lastIdxIn]
  rfl

theorem lastIdxIn_lt_length (l : List Int) (q : Int) (h : q ∈ l) :
    lastIdxIn l q < l.length := by
  induction l using List.reverseRecOn with
  | nil => simp at h
  | append_singleton l x ih =>
    rw [lastIdxIn_concat]
    by_cases hx : x = q
    · simp [hx]
    · rw [if_neg hx]
      have hq : q ∈ l := by
        rcases List.mem_append.mp h with h1 | h1
        · exact h1
        · exact absurd (List.mem_singleton.mp h1).symm hx
      calc lastIdxIn l q < l.length := ih hq
        _ ≤ (l ++ [x]).length := by simp

theorem getElem_lastIdxIn (l : List Int) (q : Int) (h : q ∈ l) :
    l[lastIdxIn l q]? = some q := by
  induction l using List.reverseRecOn with
  | nil => simp at h
  | append_singleton l x ih =>
    rw [lastIdxIn_concat]
    by_cases hx : x = q
    · rw [if_pos hx, List.getElem?_concat_length, hx]
    · rw [if_neg hx]
      have hq : q ∈ l := by
        rcases List.mem_append.mp h with h1 | h1
        · exact h1
        · exact absurd (List.mem_singleton.mp h1).symm hx
      rw [List.getElem?_append_left (lastIdxIn_lt_length l q hq)]
      exact ih hq

theorem lastIdxIn_inj (l : List Int) (a b : Int) (ha : a ∈ l) (hb : b ∈ l)
    (h : lastIdxIn l a = lastIdxIn l b) : a = b := by
  have h1 := getElem_lastIdxIn l a ha
  have h2 := getElem_lastIdxIn l b hb
  rw [h] at h1
  rw [h1] at h2
  exact Option.some.inj h2

theorem dictLookup_enumFoldFrom (f : Nat → Int) (l : List Int) :
    ∀ (d : List (Int × Int)) (n : Nat) (q : Int),
    dictLookup ((List.enumFrom n l).foldl (fun d p => pyDictAssign d p.2 (f p.1)) d) q
      = if q ∈ l then some (f (n + lastIdxIn l q)) else dictLookup d q := by
  induction l using List.reverseRecOn with
  | nil => intro d n q; simp
  | append_singleton l x ih =>
    intro d n q
    have henum : List.enumFrom n (l ++ [x]) = List.enumFrom n l ++ [(n + l.length, x)] := by
      rw [List.enumFrom_append]
      rfl
    rw [henum, List.foldl_append]
    simp only [List.foldl_cons, List.foldl_nil]
    rw [dictLookup_assign, lastIdxIn_concat]
    by_cases hx : x = q
    · rw [if_pos (hx ▸ rfl : q = x), if_pos hx,
        if_pos (by simp [hx.symm] : q ∈ l ++ [x])]
    · rw [if_neg (fun hc => hx hc.symm), ih d n q, if_neg hx]
      by_cases hq : q ∈ l
      · rw [if_pos hq, if_pos (List.mem_append.mpr (Or.inl hq))]
      · rw [if_neg hq, if_neg (by
          intro hc
          rcases List.mem_append.mp hc with h1 | h1
          · exact hq h1
          · exact hx (List.mem_singleton.mp h1).symm)]

theorem dictLookup_append (m d2 : List (Int × Int)) (q : Int) :
    dictLookup (m ++ d2) q = (dictLookup m q).or (dictLookup d2 q) := by
  rw [dictLookup, List.find?_append]
  cases hm : m.find? (fun p => decide (p.1 = q)) with
  | none =>
    rw [dictLookup, hm]
    rfl
  | some x =>
    rw [dictLookup, hm]
    rfl

theorem dictLookup_updateFold (m : List (Int × Int)) :
    ∀ (d : List (Int × Int)) (q : Int), (dictKeys m).Nodup →
    dictLookup (m.foldl (fun d p => pyDictAssign d p.1 p.2) d) q
      = if q ∈ dictKeys m then dictLookup m q else dictLookup d q := by
  induction m using List.reverseRecOn with
  | nil => intro d q _; simp [dictKeys, dictLookup_nil]
  | append_singleton m p ih =>
    intro d q hnd
    have hkeys : dictKeys (m ++ [p]) = dictKeys m ++ [p.1] := by
      rw [dictKeys, List.map_append]
      rfl
    rw [hkeys] at hnd ⊢
    rw [List.nodup_append] at hnd
    have hp1 : p.1 ∉ dictKeys m := by
      intro hc
      exact hnd.2.2 hc (List.mem_singleton.mpr rfl)
    rw [List.foldl_append]
    simp only [List.foldl_cons, List.foldl_nil]
    rw [dictLookup_assign, ih d q hnd.1]
    by_cases hq : q = p.1
    · rw [if_pos hq,
        if_pos (by rw [hq]; exact List.mem_append.mpr (Or.inr (List.mem_singleton.mpr rfl))),
        dictLookup_append]
      have hnone : dictLookup m q = none := by
        cases hl : dictLookup m q with
        | none => rfl
        | some v =>
          exfalso
          apply hp1
          rw [← hq]
          exact (dictLookup_isSome_iff m q).mp (by simp [hl])
      rw [hnone, dictLookup_cons_pos _ _ _ hq.symm]
      rfl
    · rw [if_neg (fun hc => hq hc)]
      by_cases hqm : q ∈ dictKeys m
      · rw [if_pos hqm, if_pos (List.mem_append.mpr (Or.inl hqm)), dictLookup_append]
        cases hl : dictLookup m q with
        | none =>
          exact absurd hqm (by
            intro hc
            have := (dictLookup_isSome_iff m q).mpr hc
            rw [hl] at this
            simp at this)
        | some v => rfl
      · rw [if_neg hqm, if_neg (by
          intro hc
          rcases List.mem_append.mp hc with h1 | h1
          · exact hqm h1
          · exact hq (List.mem_singleton.mp h1))]

theorem dictKeys_foldAssign_nodup {α : Type} (key : α → Int) (val : α → Int)
    (l : List α) :
    ∀ (d : List (Int × Int)), (dictKeys d).Nodup →
    (dictKeys (l.foldl (fun d x => pyDictAssign d (key x) (val x)) d)).Nodup := by
  induction l with
  | nil => intro d h; exact h
  | cons a l ih =>
    intro d h
    exact ih _ (dictKeys_assign_nodup _ _ _ h)

theorem dropWhile_head_not {α : Type} (p : α → Bool) (l : List α) (b : α) (t : List α)
    (h : l.dropWhile p = b :: t) : p b = false := by
  induction l with
  | nil => simp at h
  | cons a l ih =>
    rw [List.dropWhile_cons] at h
    by_cases hc : p a = true
    · rw [if_pos hc] at h
      exact ih h
    · rw [if_neg hc] at h
      injection h with h1 h2
      subst h1
      exact Bool.eq_false_iff.mpr hc

theorem find?_eq_mem_int (l : List Int) (cid : Int) :
    l.find? (fun x => decide (x = cid)) = if cid ∈ l then some cid else none := by
  induction l with
  | nil => simp
  | cons a l ih =>
    by_cases ha : a = cid
    · rw [List.find?_cons_of_pos _ (by simpa using ha), if_pos (by simp [ha]), ha]
    · rw [List.find?_cons_of_neg _ (by simpa using ha), ih]
      by_cases hc : cid ∈ l
      · rw [if_pos hc, if_pos (by simp [hc])]
      · rw [if_neg hc, if_neg (by simp [hc]; exact fun h => ha h.symm)]

theorem cntAll_ne_zero_iff (objs : List ObjRow) (cid : Int) :
    cntAll objs cid ≠ 0 ↔ cid ∈ objs.map effClassifId := by
  rw [cntAll]
  constructor
  · intro h
    obtain ⟨o, ho⟩ := List.exists_mem_of_length_pos (Nat.pos_of_ne_zero h)
    have hm := List.mem_filter.mp ho
    exact List.mem_map.mpr ⟨o, hm.1, of_decide_eq_true hm.2⟩
  · intro h hlen
    rcases List.mem_map.mp h with ⟨o, ho, heq⟩
    have : o ∈ objs.filter (fun o => decide (effClassifId o = cid)) :=
      List.mem_filter.mpr ⟨ho, by simpa using heq⟩
    rw [List.length_eq_zero.mp hlen] at this
    simp at this

theorem ptsFind_groupStatRows (objs : List ObjRow) (cid : Int) :
    ptsFind (groupStatRows objs) cid = statsOf objs cid := by
  rw [groupStatRows, ptsFind, List.find?_map]
  have hpred : ((fun r : PTSRow => decide (r.id = cid)) ∘ statRowFor objs)
      = fun x => decide (x = cid) := rfl
  rw [hpred, find?_eq_mem_int]
  by_cases hc : cid ∈ (objs.map effClassifId).dedup
  · rw [if_pos hc]
    rw [statsOf, if_neg ((cntAll_ne_zero_iff objs cid).mpr (List.mem_dedup.mp hc))]
    rfl
  · rw [if_neg hc]
    rw [statsOf, if_pos (by
      by_contra h
      exact hc (List.mem_dedup.mpr ((cntAll_ne_zero_iff objs cid).mp h)))]
    rfl

theorem chgFind_nil (cid : Int) : chgFind [] cid = none := rfl

theorem chgFind_cons_pos (a : Int × ChgBucket) (m : ChangeMapT) (cid : Int)
    (h : a.1 = cid) : chgFind (a :: m) cid = some a.2 := by
  rw [chgFind, List.find?_cons_of_pos _ (by simpa using h)]
  rfl

theorem chgFind_cons_neg (a : Int × ChgBucket) (m : ChangeMapT) (cid : Int)
    (h : ¬ a.1 = cid) : chgFind (a :: m) cid = chgFind m cid := by
  rw [chgFind, List.find?_cons_of_neg _ (by simpa using h)]
  rfl

theorem chgFind_mapAdd (k : Int) (q : Option Qual) (inc : Int) (x : Int)
    (hx : ¬ x = k) (m : ChangeMapT) :
    chgFind (m.map (fun p => if p.1 = k then (p.1, bucketAdd p.2 q inc) else p)) x
      = chgFind m x := by
  induction m with
  | nil => rfl
  | cons a m ih =>
    by_cases ha : a.1 = k
    · rw [List.map_cons, if_pos ha,
        chgFind_cons_neg (a.1, bucketAdd a.2 q inc) _ _ (fun h => hx (h.symm.trans ha)),
        chgFind_cons_neg _ _ _ (fun h => hx (h.symm.trans ha)), ih]
    · rw [List.map_cons, if_neg ha]
      by_cases hax : a.1 = x
      · rw [chgFind_cons_pos _ _ _ hax, chgFind_cons_pos _ _ _ hax]
      · rw [chgFind_cons_neg _ _ _ hax, chgFind_cons_neg _ _ _ hax, ih]

theorem chgFind_append (m1 m2 : ChangeMapT) (x : Int) :
    chgFind (m1 ++ m2) x = (chgFind m1 x).or (chgFind m2 x) := by
  rw [chgFind, List.find?_append]
  cases hm : m1.find? (fun p => decide (p.1 = x)) with
  | none =>
    rw [chgFind, hm]
    rfl
  | some p =>
    rw [chgFind, hm]
    rfl

theorem chgFind_mapAdd_self (k : Int) (q : Option Qual) (inc : Int)
    (m : ChangeMapT) (p : Int × ChgBucket)
    (hf : m.find? (fun p => decide (p.1 = k)) = some p) :
    chgFind (m.map (fun p => if p.1 = k then (p.1, bucketAdd p.2 q inc) else p)) k
      = some (bucketAdd p.2 q inc) := by
  induction m with
  | nil => simp at hf
  | cons a m ih =>
    by_cases ha : a.1 = k
    · rw [List.find?_cons_of_pos _ (by simpa using ha)] at hf
      injection hf with hf
      subst hf
      rw [List.map_cons, if_pos ha]
      exact chgFind_cons_pos (a.1, bucketAdd a.2 q inc) _ _ ha
    · rw [List.find?_cons_of_neg _ (by simpa using ha)] at hf
      rw [List.map_cons, if_neg ha, chgFind_cons_neg _ _ _ ha]
      exact ih hf

theorem chgFind_cio (m : ChangeMapT) (ci : Option Int) (q : Option Qual)
    (inc : Int) (x : Int) :
    chgFind (ObjectManager_count_in_and_out m ci q inc) x
      = if x = ci.getD (-1) then some (bucketAdd (chgDelta m x) q inc)
        else chgFind m x := by
  unfold ObjectManager_count_in_and_out
  cases hf : m.find? (fun p => decide (p.1 = ci.getD (-1))) with
  | some p =>
    dsimp only
    rw [hf]
    by_cases hx : x = ci.getD (-1)
    · rw [if_pos hx, hx, chgFind_mapAdd_self _ _ _ _ _ hf]
      have : chgFind m (ci.getD (-1)) = some p.2 := by
        rw [chgFind, hf]
        rfl
      rw [chgDelta, this]
      rfl
    · rw [if_neg hx, chgFind_mapAdd _ _ _ _ hx m]
  | none =>
    dsimp only
    rw [hf]
    by_cases hx : x = ci.getD (-1)
    · rw [if_pos hx, hx, chgFind_append]
      have h1 : chgFind m (ci.getD (-1)) = none := by
        rw [chgFind, hf]
        rfl
      rw [h1, chgFind_cons_pos _ _ _ rfl, chgDelta, h1]
      rfl
    · rw [if_neg hx, chgFind_append, chgFind_cons_neg _ _ _ (fun h => hx h.symm),
        chgFind_nil]
      cases hm : chgFind m x with
      | none => rfl
      | some b => rfl

theorem cio_keys_nodup (m : ChangeMapT) (ci : Option Int) (q : Option Qual)
    (inc : Int)
    (h : (m.map (fun p => p.1)).Nodup) :
    ((ObjectManager_count_in_and_out m ci q inc).map (fun p => p.1)).Nodup := by
  unfold ObjectManager_count_in_and_out
  cases hf : m.find? (fun p => decide (p.1 = ci.getD (-1))) with
  | some p =>
    dsimp only
    rw [hf]
    rw [List.map_map]
    have : ((fun p : Int × ChgBucket => p.1)
        ∘ (fun p => if p.1 = ci.getD (-1) then (p.1, bucketAdd p.2 q inc) else p))
        = fun p : Int × ChgBucket => p.1 := by
      funext p
      by_cases hp : p.1 = ci.getD (-1)
      · simp [hp]
      · simp [hp]
    rw [this]
    exact h
  | none =>
    dsimp only
    rw [hf]
    rw [List.map_append, List.nodup_append]
    refine ⟨h, by simp, ?_⟩
    intro a ha hb
    simp only [List.map_cons, List.map_nil, List.mem_singleton] at hb
    subst hb
    rcases List.mem_map.mp ha with ⟨p, hp, hpk⟩
    have := List.find?_eq_none.mp hf p hp
    simp only [decide_eq_true_eq] at this
    exact this hpk

theorem chgFind_of_mem (m : ChangeMapT) (hnd : (m.map (fun p => p.1)).Nodup)
    (kv : Int × ChgBucket) (hkv : kv ∈ m) : chgFind m kv.1 = some kv.2 := by
  induction m with
  | nil => simp at hkv
  | cons a m ih =>
    simp only [List.map_cons, List.nodup_cons] at hnd
    rcases List.mem_cons.mp hkv with h | h
    · subst h
      exact chgFind_cons_pos _ _ _ rfl
    · have hne : ¬ a.1 = kv.1 := by
        intro hcon
        exact hnd.1 (hcon ▸ List.mem_map_of_mem (fun x => x.1) h)
      rw [chgFind_cons_neg _ _ _ hne]
      exact ih hnd.2 h

theorem chgFind_mem_keys (m : ChangeMapT) (x : Int) (b : ChgBucket)
    (h : chgFind m x = some b) : x ∈ m.map (fun p => p.1) := by
  rw [chgFind] at h
  cases hf : m.find? (fun p => decide (p.1 = x)) with
  | none => rw [hf] at h; simp at h
  | some p =>
    have hp := List.find?_some hf
    have hm := List.mem_of_find?_eq_some hf
    simp only [decide_eq_true_eq] at hp
    exact hp ▸ List.mem_map_of_mem (fun p => p.1) hm

theorem applyClassif_eq_self (objs : List ObjRow) (u : ClassifUpd)
    (h : ∀ x ∈ objs, ¬ x.objid = u.objid) : applyClassif objs u = objs := by
  rw [applyClassif]
  rw [List.map_congr_left (fun x hx => if_neg (h x hx))]
  exact List.map_id _

theorem applyClassif_objids (objs : List ObjRow) (u : ClassifUpd) :
    (applyClassif objs u).map (fun o => o.objid) = objs.map (fun o => o.objid) := by
  rw [applyClassif, List.map_map]
  apply List.map_congr_left
  intro o _
  by_cases ho : o.objid = u.objid
  · simp [ho, updObj]
  · simp [ho]

theorem filter_applyClassif (objs : List ObjRow) (u : ClassifUpd) (o : ObjRow)
    (hnd : (objs.map (fun x => x.objid)).Nodup)
    (hfind : objs.find? (fun x => decide (x.objid = u.objid)) = some o)
    (g : ObjRow → Bool) :
    ((applyClassif objs u).filter g).length + (if g o then 1 else 0)
      = (objs.filter g).length + (if g (updObj o u) then 1 else 0) := by
  induction objs with
  | nil => simp at hfind
  | cons a objs ih =>
    simp only [List.map_cons, List.nodup_cons] at hnd
    by_cases ha : a.objid = u.objid
    · rw [List.find?_cons_of_pos _ (by simpa using ha)] at hfind
      injection hfind with hfind
      subst hfind
      have hrest : applyClassif objs u = objs := by
        apply applyClassif_eq_self
        intro x hx hcon
        refine hnd.1 ?_
        have hxa : x.objid = a.objid := by rw [hcon, ha]
        exact hxa ▸ List.mem_map_of_mem (fun z => z.objid) hx
      rw [applyClassif, List.map_cons, if_pos ha, ← applyClassif, hrest]
      simp only [List.filter_cons]
      by_cases hg1 : g (updObj a u) = true <;> by_cases hg2 : g a = true <;>
        simp [hg1, hg2] <;> omega
    · rw [List.find?_cons_of_neg _ (by simpa using ha)] at hfind
      rw [applyClassif, List.map_cons, if_neg ha, ← applyClassif]
      by_cases hg : g a = true
      · simp only [List.filter_cons, hg, if_true, List.length_cons]
        have := ih hnd.2 hfind
        omega
      · simp only [List.filter_cons, Bool.eq_false_iff.mpr hg, Bool.false_eq_true,
          if_false]
        exact ih hnd.2 hfind

theorem bucketAdd_n (b : ChgBucket) (q : Option Qual) (inc : Int) :
    (bucketAdd b q inc).n = b.n + inc := by
  rcases q with _ | q
  · rfl
  · cases q <;> rfl

theorem bucketAdd_v (b : ChgBucket) (q : Option Qual) (inc : Int) :
    (bucketAdd b q inc).v = b.v + (if q = some .V then inc else 0) := by
  rcases q with _ | q
  · simp [bucketAdd]
  · cases q <;> simp [bucketAdd]

theorem bucketAdd_d (b : ChgBucket) (q : Option Qual) (inc : Int) :
    (bucketAdd b q inc).d = b.d + (if q = some .D then inc else 0) := by
  rcases q with _ | q
  · simp [bucketAdd]
  · cases q <;> simp [bucketAdd]

theorem bucketAdd_p (b : ChgBucket) (q : Option Qual) (inc : Int) :
    (bucketAdd b q inc).p = b.p + (if q = some .P then inc else 0) := by
  rcases q with _ | q
  · simp [bucketAdd]
  · cases q <;> simp [bucketAdd]

theorem chgDelta_cio (m : ChangeMapT) (ci : Option Int) (q : Option Qual)
    (inc : Int) (x : Int) :
    chgDelta (ObjectManager_count_in_and_out m ci q inc) x
      = if x = ci.getD (-1) then bucketAdd (chgDelta m x) q inc else chgDelta m x := by
  rw [chgDelta, chgFind_cio]
  by_cases hx : x = ci.getD (-1)
  · rw [if_pos hx, if_pos hx]
    rfl
  · rw [if_neg hx, if_neg hx]
    rfl

theorem batchInv_refl (objs : List ObjRow) : batchInv objs objs [] := by
  intro cid
  refine ⟨?_, ?_, ?_, ?_⟩ <;> simp [chgDelta, chgFind_nil]

theorem classifyStep_objids (objs : List ObjRow) (m : ChangeMapT) (u : ClassifUpd) :
    (classifyStep (objs, m) u).1.map (fun x => x.objid)
      = objs.map (fun x => x.objid) := by
  unfold classifyStep
  cases hfind : (objs.find? (fun o => decide (o.objid = u.objid))) with
  | none => rfl
  | some o => exact applyClassif_objids objs u

theorem classifyStep_keysNodup (objs : List ObjRow) (m : ChangeMapT) (u : ClassifUpd)
    (h : (m.map (fun p => p.1)).Nodup) :
    ((classifyStep (objs, m) u).2.map (fun p => p.1)).Nodup := by
  unfold classifyStep
  cases hfind : (objs.find? (fun o => decide (o.objid = u.objid))) with
  | none => exact h
  | some o => exact cio_keys_nodup _ _ _ _ (cio_keys_nodup _ _ _ _ h)

theorem classifyStep_inv (objs0 objs : List ObjRow) (m : ChangeMapT) (u : ClassifUpd)
    (hnd : (objs.map (fun x => x.objid)).Nodup)
    (hinv : batchInv objs0 objs m) :
    batchInv objs0 (classifyStep (objs, m) u).1 (classifyStep (objs, m) u).2 := by
  unfold classifyStep
  cases hfind : (objs.find? (fun o => decide (o.objid = u.objid))) with
  | none => exact hinv
  | some o =>
    dsimp only
    intro cid
    have hdel : chgDelta (ObjectManager_count_in_and_out
        (ObjectManager_count_in_and_out m o.classif_id o.classif_qual (-1))
        u.new_id u.new_qual 1) cid
        = (if cid = effClassifId (updObj o u) then
            bucketAdd (if cid = effClassifId o then
                bucketAdd (chgDelta m cid) o.classif_qual (-1)
              else chgDelta m cid) u.new_qual 1
          else (if cid = effClassifId o then
                bucketAdd (chgDelta m cid) o.classif_qual (-1)
              else chgDelta m cid)) := by
      rw [chgDelta_cio, chgDelta_cio]
      rfl
    have hd_n : (chgDelta (ObjectManager_count_in_and_out
        (ObjectManager_count_in_and_out m o.classif_id o.classif_qual (-1))
        u.new_id u.new_qual 1) cid).n
        = (chgDelta m cid).n
          + (if effClassifId (updObj o u) = cid then 1 else 0)
          - (if effClassifId o = cid then 1 else 0) := by
      rw [hdel]
      simp only [@eq_comm _ cid]
      by_cases hN : effClassifId (updObj o u) = cid <;>
        by_cases hO : effClassifId o = cid <;>
        simp [hN, hO, bucketAdd_n] <;> omega
    have hd_v : (chgDelta (ObjectManager_count_in_and_out
        (ObjectManager_count_in_and_out m o.classif_id o.classif_qual (-1))
        u.new_id u.new_qual 1) cid).v
        = (chgDelta m cid).v
          + (if effClassifId (updObj o u) = cid then
              (if u.new_qual = some .V then 1 else 0) else 0)
          - (if effClassifId o = cid then
              (if o.classif_qual = some .V then 1 else 0) else 0) := by
      rw [hdel]
      simp only [@eq_comm _ cid]
      by_cases hN : effClassifId (updObj o u) = cid <;>
        by_cases hO : effClassifId o = cid <;>
        by_cases hq1 : u.new_qual = some Qual.V <;>
        by_cases hq2 : o.classif_qual = some Qual.V <;>
        simp [hN, hO, hq1, hq2, bucketAdd_v, bucketAdd_n] <;> omega
    have hd_d : (chgDelta (ObjectManager_count_in_and_out
        (ObjectManager_count_in_and_out m o.classif_id o.classif_qual (-1))
        u.new_id u.new_qual 1) cid).d
        = (chgDelta m cid).d
          + (if effClassifId (updObj o u) = cid then
              (if u.new_qual = some .D then 1 else 0) else 0)
          - (if effClassifId o = cid then
              (if o.classif_qual = some .D then 1 else 0) else 0) := by
      rw [hdel]
      simp only [@eq_comm _ cid]
      by_cases hN : effClassifId (updObj o u) = cid <;>
        by_cases hO : effClassifId o = cid <;>
        by_cases hq1 : u.new_qual = some Qual.D <;>
        by_cases hq2 : o.classif_qual = some Qual.D <;>
        simp [hN, hO, hq1, hq2, bucketAdd_d, bucketAdd_n] <;> omega
    have hd_p : (chgDelta (ObjectManager_count_in_and_out
        (ObjectManager_count_in_and_out m o.classif_id o.classif_qual (-1))
        u.new_id u.new_qual 1) cid).p
        = (chgDelta m cid).p
          + (if effClassifId (updObj o u) = cid then
              (if u.new_qual = some .P then 1 else 0) else 0)
          - (if effClassifId o = cid then
              (if o.classif_qual = some .P then 1 else 0) else 0) := by
      rw [hdel]
      simp only [@eq_comm _ cid]
      by_cases hN : effClassifId (updObj o u) = cid <;>
        by_cases hO : effClassifId o = cid <;>
        by_cases hq1 : u.new_qual = some Qual.P <;>
        by_cases hq2 : o.classif_qual = some Qual.P <;>
        simp [hN, hO, hq1, hq2, bucketAdd_p, bucketAdd_n] <;> omega
    have hAll : (cntAll (applyClassif objs u) cid
          + (if effClassifId o = cid then 1 else 0) : Int)
        = cntAll objs cid
          + (if effClassifId (updObj o u) = cid then 1 else 0) := by
      have h := filter_applyClassif objs u o hnd hfind
        (fun x => decide (effClassifId x = cid))
      rw [cntAll, cntAll]
      by_cases h1 : effClassifId o = cid <;>
        by_cases h2 : effClassifId (updObj o u) = cid <;>
        simp [h1, h2] at h ⊢ <;> omega
    have hQ : ∀ qq : Qual, (cntQ (applyClassif objs u) cid qq
          + (if effClassifId o = cid then
              (if o.classif_qual = some qq then 1 else 0) else 0) : Int)
        = cntQ objs cid qq
          + (if effClassifId (updObj o u) = cid then
              (if u.new_qual = some qq then 1 else 0) else 0) := by
      intro qq
      have h := filter_applyClassif objs u o hnd hfind
        (fun x => decide (effClassifId x = cid) && (x.classif_qual == some qq))
      have hupdq : (updObj o u).classif_qual = u.new_qual := rfl
      rw [cntQ, cntQ]
      by_cases h1 : effClassifId o = cid <;>
        by_cases h2 : effClassifId (updObj o u) = cid <;>
        by_cases h3 : o.classif_qual = some qq <;>
        by_cases h4 : u.new_qual = some qq <;>
        simp [h1, h2, h3, h4, hupdq] at h ⊢ <;> omega
    obtain ⟨hp1, hp2, hp3, hp4⟩ := hinv cid
    refine ⟨?_, ?_, ?_, ?_⟩
    · rw [hd_n]
      omega
    · rw [hd_v]
      have := hQ .V
      omega
    · rw [hd_d]
      have := hQ .D
      omega
    · rw [hd_p]
      have := hQ .P
      omega


theorem classifyFold_inv (upds : List ClassifUpd) :
    ∀ (objs0 objs : List ObjRow) (m : ChangeMapT),
    (objs.map (fun x => x.objid)).Nodup →
    ((m.map (fun p => p.1)).Nodup) →
    batchInv objs0 objs m →
    ((upds.foldl classifyStep (objs, m)).1.map (fun x => x.objid)).Nodup ∧
    (((upds.foldl classifyStep (objs, m)).2.map (fun p => p.1)).Nodup) ∧
    batchInv objs0 (upds.foldl classifyStep (objs, m)).1
      (upds.foldl classifyStep (objs, m)).2 := by
  induction upds with
  | nil =>
    intro objs0 objs m hnd hkeys hinv
    exact ⟨hnd, hkeys, hinv⟩
  | cons u upds ih =>
    intro objs0 objs m hnd hkeys hinv
    have hnd2 : ((classifyStep (objs, m) u).1.map (fun x => x.objid)).Nodup := by
      rw [classifyStep_objids]
      exact hnd
    have hkeys2 := classifyStep_keysNodup objs m u hkeys
    have hinv2 := classifyStep_inv objs0 objs m u hnd hinv
    have h := ih objs0 (classifyStep (objs, m) u).1 (classifyStep (objs, m) u).2
      hnd2 hkeys2 hinv2
    simpa [List.foldl_cons] using h

theorem classifyBatch_inv (objs : List ObjRow) (upds : List ClassifUpd)
    (hnd : (objs.map (fun x => x.objid)).Nodup) :
    ((classifyBatch objs upds).1.map (fun x => x.objid)).Nodup ∧
    (((classifyBatch objs upds).2.map (fun p => p.1)).Nodup) ∧
    batchInv objs (classifyBatch objs upds).1 (classifyBatch objs upds).2 :=
  classifyFold_inv upds objs objs [] hnd (by simp) (batchInv_refl objs)

theorem ptsFind_append (m1 m2 : List PTSRow) (x : Int) :
    ptsFind (m1 ++ m2) x = (ptsFind m1 x).or (ptsFind m2 x) := by
  rw [ptsFind, List.find?_append]
  rfl

theorem ptsFind_eq_none_iff (pts : List PTSRow) (x : Int) :
    ptsFind pts x = none ↔ x ∉ pts.map (fun r => r.id) := by
  rw [ptsFind, List.find?_eq_none]
  constructor
  · intro h hc
    rcases List.mem_map.mp hc with ⟨r, hr, hid⟩
    exact h r hr (by simpa using hid)
  · intro h r hr hp
    exact h (List.mem_map.mpr ⟨r, hr, of_decide_eq_true hp⟩)

theorem ptsFind_filter_self (acc : List PTSRow) (k : Int) :
    ptsFind (acc.filter (fun r => decide (r.id ≠ k))) k = none := by
  rw [ptsFind, List.find?_eq_none]
  intro r hr
  have := (List.mem_filter.mp hr).2
  simp only [decide_eq_true_eq] at this ⊢
  exact this

theorem ptsFind_cons_pos (a : PTSRow) (l : List PTSRow) (x : Int)
    (h : a.id = x) : ptsFind (a :: l) x = some a := by
  rw [ptsFind, List.find?_cons_of_pos _ (by simpa using h)]

theorem ptsFind_cons_neg (a : PTSRow) (l : List PTSRow) (x : Int)
    (h : ¬ a.id = x) : ptsFind (a :: l) x = ptsFind l x := by
  rw [ptsFind, List.find?_cons_of_neg _ (by simpa using h)]
  rfl

theorem ptsFind_filter_ne (acc : List PTSRow) (k x : Int) (hx : ¬ x = k) :
    ptsFind (acc.filter (fun r => decide (r.id ≠ k))) x = ptsFind acc x := by
  induction acc with
  | nil => rfl
  | cons a acc ih =>
    by_cases hak : a.id = k
    · have hax : ¬ a.id = x := fun hc => hx (by rw [← hc, hak])
      rw [List.filter_cons_of_neg (by simpa using hak), ptsFind_cons_neg _ _ _ hax]
      exact ih
    · by_cases hax : a.id = x
      · rw [List.filter_cons_of_pos (by simpa using hak), ptsFind_cons_pos _ _ _ hax,
          ptsFind_cons_pos _ _ _ hax]
      · rw [List.filter_cons_of_pos (by simpa using hak), ptsFind_cons_neg _ _ _ hax,
          ptsFind_cons_neg _ _ _ hax]
        exact ih


theorem ptsFind_mapUpd_other (acc : List PTSRow) (k x : Int) (hx : ¬ x = k)
    (g : PTSRow → PTSRow) (hg : ∀ r, (g r).id = r.id) :
    ptsFind (acc.map (fun r => if r.id = k then g r else r)) x = ptsFind acc x := by
  induction acc with
  | nil => rfl
  | cons a acc ih
  =>
    by_cases hak : a.id = k
    · have hax : ¬ a.id = x := fun hc => hx (by rw [← hc, hak])
      have hgax : ¬ (g a).id = x := by
        rw [hg a]
        exact hax
      rw [List.map_cons, if_pos hak, ptsFind_cons_neg _ _ _ hgax,
        ptsFind_cons_neg _ _ _ hax]
      exact ih
    · rw [List.map_cons, if_neg hak]
      by_cases hax : a.id = x
      · rw [ptsFind_cons_pos _ _ _ hax, ptsFind_cons_pos _ _ _ hax]
      · rw [ptsFind_cons_neg _ _ _ hax, ptsFind_cons_neg _ _ _ hax]
        exact ih

theorem ptsFind_mapUpd_self (acc : List PTSRow) (k : Int)
    (g : PTSRow → PTSRow) (hg : ∀ r, (g r).id = r.id) :
    ptsFind (acc.map (fun r => if r.id = k then g r else r)) k
      = (ptsFind acc k).map g := by
  induction acc with
  | nil => rfl
  | cons a acc ih =>
    by_cases hak : a.id = k
    · rw [List.map_cons, if_pos hak, ptsFind_cons_pos _ _ _ (by rw [hg a]; exact hak),
        ptsFind_cons_pos _ _ _ hak]
      rfl
    · rw [List.map_cons, if_neg hak, ptsFind_cons_neg _ _ _ hak,
        ptsFind_cons_neg _ _ _ hak]
      exact ih

theorem applyOneDelta_find_other (pts0 : List PTSRow) (nid : List Int)
    (acc : List PTSRow) (kv : Int × ChgBucket) (x : Int) (hx : ¬ x = kv.1) :
    ptsFind (applyOneDelta pts0 nid acc kv) x = ptsFind acc x := by
  unfold applyOneDelta
  by_cases hin : kv.1 ∈ nid
  · rw [if_pos hin]
  · rw [if_neg hin]
    cases hf : ptsFind pts0 kv.1 with
    | none => rfl
    | some r =>
      dsimp only
      by_cases hz : r.nbr + kv.2.n = 0
      · rw [if_pos hz]
        exact ptsFind_filter_ne acc kv.1 x hx
      · rw [if_neg hz]
        exact ptsFind_mapUpd_other acc kv.1 x hx _ (fun r => rfl)

theorem applyOneDelta_find_self (pts0 : List PTSRow) (nid : List Int)
    (acc : List PTSRow) (kv : Int × ChgBucket) :
    ptsFind (applyOneDelta pts0 nid acc kv) kv.1
      = deltaEffect pts0 nid kv.1 kv.2 (ptsFind acc kv.1) := by
  unfold applyOneDelta deltaEffect
  by_cases hin : kv.1 ∈ nid
  · rw [if_pos hin, if_pos hin]
  · rw [if_neg hin, if_neg hin]
    cases hf : ptsFind pts0 kv.1 with
    | none => rfl
    | some r =>
      dsimp only
      by_cases hz : r.nbr + kv.2.n = 0
      · rw [if_pos hz, if_pos hz]
        exact ptsFind_filter_self acc kv.1
      · rw [if_neg hz, if_neg hz]
        exact ptsFind_mapUpd_self acc kv.1 _ (fun r => rfl)

theorem chgFind_eq_none_of_not_mem (m : ChangeMapT) (x : Int)
    (h : x ∉ m.map (fun p => p.1)) : chgFind m x = none := by
  rw [chgFind]
  rw [List.find?_eq_none.mpr]
  · rfl
  · intro p hp hc
    exact h (List.mem_map.mpr ⟨p, hp, of_decide_eq_true hc⟩)

theorem foldDelta_find (pts0 : List PTSRow) (nid : List Int) (l : ChangeMapT) :
    ∀ (acc : List PTSRow) (cid : Int), ((l.map (fun p => p.1)).Nodup) →
    ptsFind (l.foldl (applyOneDelta pts0 nid) acc) cid
      = (match chgFind l cid with
        | none => ptsFind acc cid
        | some b => deltaEffect pts0 nid cid b (ptsFind acc cid)) := by
  induction l with
  | nil =>
    intro acc cid _
    rw [chgFind_nil]
    rfl
  | cons kv l ih =>
    intro acc cid hnd
    simp only [List.map_cons, List.nodup_cons] at hnd
    rw [List.foldl_cons]
    by_cases hk : kv.1 = cid
    · rw [chgFind_cons_pos _ _ _ hk]
      have hlnone : chgFind l cid = none := by
        apply chgFind_eq_none_of_not_mem
        intro hc
        exact hnd.1 (hk ▸ hc)
      rw [ih _ cid hnd.2, hlnone]
      dsimp only
      rw [← hk, applyOneDelta_find_self]
    · rw [chgFind_cons_neg _ _ _ hk,
        ih _ cid hnd.2,
        applyOneDelta_find_other pts0 nid acc kv cid (fun hc => hk hc.symm)]

theorem applyOneDelta_ids_nodup (pts0 : List PTSRow) (nid : List Int)
    (acc : List PTSRow) (kv : Int × ChgBucket)
    (h : (acc.map (fun r => r.id)).Nodup) :
    ((applyOneDelta pts0 nid acc kv).map (fun r => r.id)).Nodup := by
  unfold applyOneDelta
  by_cases hin : kv.1 ∈ nid
  · rw [if_pos hin]
    exact h
  · rw [if_neg hin]
    cases hf : ptsFind pts0 kv.1 with
    | none => exact h
    | some r =>
      dsimp only
      by_cases hz : r.nbr + kv.2.n = 0
      · rw [if_pos hz]
        exact List.Nodup.sublist ((List.filter_sublist _).map _) h
      · rw [if_neg hz]
        have : (acc.map (fun x => if x.id = kv.1 then
              (⟨x.id, x.nbr + kv.2.n, x.nbr_v + kv.2.v, x.nbr_d + kv.2.d,
                x.nbr_p + kv.2.p⟩ : PTSRow) else x)).map (fun r => r.id)
            = acc.map (fun r => r.id) := by
          rw [List.map_map]
          apply List.map_congr_left
          intro r _
          by_cases hr : r.id = kv.1
          · simp [hr]
          · simp [hr]
        rw [this]
        exact h

theorem foldDelta_ids_nodup (pts0 : List PTSRow) (nid : List Int) (l : ChangeMapT) :
    ∀ (acc : List PTSRow), ((acc.map (fun r => r.id)).Nodup) →
    ((l.foldl (applyOneDelta pts0 nid) acc).map (fun r => r.id)).Nodup := by
  induction l with
  | nil => intro acc h; exact h
  | cons kv l ih =>
    intro acc h
    rw [List.foldl_cons]
    exact ih _ (applyOneDelta_ids_nodup pts0 nid acc kv h)

theorem statsOf_eq_of_counts (objs objs2 : List ObjRow) (c : Int)
    (hA : cntAll objs2 c = cntAll objs c)
    (hV : cntQ objs2 c .V = cntQ objs c .V)
    (hD : cntQ objs2 c .D = cntQ objs c .D)
    (hP : cntQ objs2 c .P = cntQ objs c .P) :
    statsOf objs2 c = statsOf objs c := by
  rw [statsOf, statsOf, statRowFor, statRowFor, hA, hV, hD, hP]

theorem cnt_filter_of_mem (objs2 : List ObjRow) (nid : List Int) (c : Int)
    (hc : c ∈ nid) :
    cntAll (objs2.filter (fun o => decide (effClassifId o ∈ nid))) c
        = cntAll objs2 c ∧
    ∀ q, cntQ (objs2.filter (fun o => decide (effClassifId o ∈ nid))) c q
        = cntQ objs2 c q := by
  constructor
  · rw [cntAll, cntAll, List.filter_filter]
    congr 1
    apply List.filter_congr
    intro o _
    by_cases he : effClassifId o = c
    · simp [he, hc]
    · simp [he]
  · intro q
    rw [cntQ, cntQ, List.filter_filter]
    congr 1
    apply List.filter_congr
    intro o _
    by_cases he : effClassifId o = c
    · simp [he, hc]
    · simp [he]

theorem insertedStatRows_find_mem (objs2 : List ObjRow) (nid : List Int) (c : Int)
    (hc : c ∈ nid) :
    ptsFind (insertedStatRows objs2 nid) c = statsOf objs2 c := by
  rw [insertedStatRows, ptsFind_groupStatRows]
  obtain ⟨hA, hQ⟩ := cnt_filter_of_mem objs2 nid c hc
  exact statsOf_eq_of_counts _ _ _ hA (hQ .V) (hQ .D) (hQ .P)

theorem insertedStatRows_find_not_mem (objs2 : List ObjRow) (nid : List Int)
    (c : Int) (hc : c ∉ nid) :
    ptsFind (insertedStatRows objs2 nid) c = none := by
  rw [insertedStatRows, ptsFind_groupStatRows, statsOf, if_pos]
  by_contra h
  rcases List.mem_map.mp ((cntAll_ne_zero_iff _ c).mp h) with ⟨o, ho, heff⟩
  have := (List.mem_filter.mp ho).2
  rw [heff] at this
  exact hc (of_decide_eq_true this)

theorem groupStatRows_ids (objs : List ObjRow) :
    (groupStatRows objs).map (fun r => r.id) = (objs.map effClassifId).dedup := by
  rw [groupStatRows, List.map_map]
  have : ((fun r : PTSRow => r.id) ∘ statRowFor objs) = id := by
    funext x
    rfl
  rw [this, List.map_id]

/-- The key refinement step: one `ProjectBO.incremental_update_taxo_stats`
call on a stat table matching `objs` and a collated change map tied to the
batch `objs → objs2` yields a stat table matching `objs2` (as a keyed
content, with distinct row ids). -/
theorem incremental_matches (objs objs2 : List ObjRow) (pts : List PTSRow)
    (m : ChangeMapT)
    (hpts : ∀ c, ptsFind pts c = statsOf objs c)
    (hptsN : (pts.map (fun r => r.id)).Nodup)
    (hkeysN : (m.map (fun p => p.1)).Nodup)
    (hinv : batchInv objs objs2 m) :
    (∀ c, ptsFind (ProjectBO_incremental_update_taxo_stats objs2 pts m) c
        = statsOf objs2 c) ∧
    ((ProjectBO_incremental_update_taxo_stats objs2 pts m).map
        (fun r => r.id)).Nodup := by
  unfold ProjectBO_incremental_update_taxo_stats
  set nid := (m.map (fun p => p.1)).filter (fun i => (ptsFind pts i).isNone)
    with hniddef
  have hnidsub : ∀ c ∈ nid, (ptsFind pts c).isNone = true := by
    intro c hc
    exact (List.mem_filter.mp hc).2
  have hins_nodup : ((pts ++ insertedStatRows objs2 nid).map
      (fun r => r.id)).Nodup := by
    rw [List.map_append, List.nodup_append]
    refine ⟨hptsN, ?_, ?_⟩
    · rw [insertedStatRows, groupStatRows_ids]
      exact List.nodup_dedup _
    · intro a ha hb
      rw [insertedStatRows, groupStatRows_ids] at hb
      rcases List.mem_map.mp (List.mem_dedup.mp hb) with ⟨o, ho, heff⟩
      have h2 := (List.mem_filter.mp ho).2
      rw [heff] at h2
      have hmem : a ∈ nid := of_decide_eq_true h2
      have hnone : ptsFind pts a = none :=
        Option.isNone_iff_eq_none.mp (hnidsub a hmem)
      exact (ptsFind_eq_none_iff pts a).mp hnone ha
  constructor
  · intro c
    rw [foldDelta_find pts nid m _ c hkeysN]
    cases hchg : chgFind m c with
    | none =>
      dsimp only
      have hnotkeys : c ∉ m.map (fun p => p.1) := by
        intro hc
        rcases List.mem_map.mp hc with ⟨p, hp, hpc⟩
        rw [chgFind] at hchg
        cases hf : m.find? (fun p => decide (p.1 = c)) with
        | some q =>
          rw [hf] at hchg
          simp at hchg
        | none =>
          have hnp := List.find?_eq_none.mp hf p hp
          simp only [decide_eq_true_eq] at hnp
          exact hnp hpc
      have hnotnid : c ∉ nid := by
        intro hc
        exact hnotkeys (List.mem_of_mem_filter hc)
      rw [ptsFind_append, hpts c,
        insertedStatRows_find_not_mem objs2 nid c hnotnid]
      have hdelta0 : chgDelta m c = ⟨0, 0, 0, 0⟩ := by
        rw [chgDelta, hchg]
        rfl
      obtain ⟨h1, h2, h3, h4⟩ := hinv c
      rw [hdelta0] at h1 h2 h3 h4
      simp only [ChgBucket.mk.injEq] at h1 h2 h3 h4 ⊢
      have hcnt : statsOf objs2 c = statsOf objs c :=
        statsOf_eq_of_counts objs objs2 c (by omega) (by omega) (by omega) (by omega)
      rw [hcnt]
      cases hst : statsOf objs c <;> rfl
    | some b =>
      dsimp only
      have hdelta : chgDelta m c = b := by
        rw [chgDelta, hchg]
        rfl
      obtain ⟨h1, h2, h3, h4⟩ := hinv c
      rw [hdelta] at h1 h2 h3 h4
      by_cases hcin : c ∈ nid
      · have hnone : ptsFind pts c = none :=
          Option.isNone_iff_eq_none.mp (hnidsub c hcin)
        rw [deltaEffect, if_pos hcin, ptsFind_append, hnone,
          insertedStatRows_find_mem objs2 nid c hcin]
        rfl
      · have hckeys : c ∈ m.map (fun p => p.1) := chgFind_mem_keys m c b hchg
        have hsome : ¬ (ptsFind pts c).isNone = true := by
          intro hc
          exact hcin (List.mem_filter.mpr ⟨hckeys, hc⟩)
        have hcnt0 : ¬ cntAll objs c = 0 := by
          intro hc
          apply hsome
          rw [hpts c, statsOf, if_pos hc]
          rfl
        have hfind : ptsFind pts c = some (statRowFor objs c) := by
          rw [hpts c, statsOf, if_neg hcnt0]
        rw [deltaEffect, if_neg hcin, hfind]
        dsimp only
        rw [statRowFor]
        dsimp only
        by_cases hz : (cntAll objs c : Int) + b.n = 0
        · rw [if_pos hz]
          rw [statsOf, if_pos (by omega)]
        · rw [if_neg hz]
          have hor : ∀ (a : PTSRow) (o : Option PTSRow), (some a).or o = some a :=
            fun a o => rfl
          rw [ptsFind_append, hfind, hor]
          rw [statsOf, if_neg (show ¬ cntAll objs2 c = 0 by omega), statRowFor]
          simp only [Option.map_some']
          rw [statRowFor]
          simp only [Option.some.injEq, PTSRow.mk.injEq]
          exact ⟨trivial, by omega, by omega, by omega, by omega⟩
  · exact foldDelta_ids_nodup pts nid m _ hins_nodup

theorem ptsFind_of_mem (pts : List PTSRow) (hnd : (pts.map (fun r => r.id)).Nodup)
    (r : PTSRow) (hr : r ∈ pts) : ptsFind pts r.id = some r := by
  induction pts with
  | nil => simp at hr
  | cons a l ih =>
    simp only [List.map_cons, List.nodup_cons] at hnd
    rcases List.mem_cons.mp hr with h | h
    · subst h
      rw [ptsFind, List.find?_cons_of_pos _ (by simp)]
    · have hne : ¬ a.id = r.id := by
        intro he
        exact hnd.1 (by rw [he]; exact List.mem_map.mpr ⟨r, h, rfl⟩)
      rw [ptsFind, List.find?_cons_of_neg _ (by simp [hne])]
      exact ih hnd.2 h

theorem runFold_inv (batches : List (List ClassifUpd)) :
    ∀ (objs : List ObjRow) (pts : List PTSRow),
    (objs.map (fun o => o.objid)).Nodup →
    (∀ c, ptsFind pts c = statsOf objs c) →
    ((pts.map (fun r => r.id)).Nodup) →
    ((batches.foldl classifyAndPropagate (objs, pts)).1.map
        (fun o => o.objid)).Nodup ∧
    (∀ c, ptsFind (batches.foldl classifyAndPropagate (objs, pts)).2 c
        = statsOf (batches.foldl classifyAndPropagate (objs, pts)).1 c) ∧
    (((batches.foldl classifyAndPropagate (objs, pts)).2.map
        (fun r => r.id)).Nodup) := by
  induction batches with
  | nil =>
    intro objs pts h1 h2 h3
    exact ⟨h1, h2, h3⟩
  | cons b bs ih =>
    intro objs pts h1 h2 h3
    obtain ⟨hbnd, hbkeys, hbinv⟩ := classifyBatch_inv objs b h1
    obtain ⟨him, himN⟩ := incremental_matches objs (classifyBatch objs b).1 pts
      (classifyBatch objs b).2 h2 h3 hbkeys hbinv
    have hcp : classifyAndPropagate (objs, pts) b
        = ((classifyBatch objs b).1,
           ProjectBO_incremental_update_taxo_stats (classifyBatch objs b).1 pts
             (classifyBatch objs b).2) := rfl
    have h := ih (classifyAndPropagate (objs, pts) b).1
      (classifyAndPropagate (objs, pts) b).2
      (by rw [hcp]; exact hbnd) (by rw [hcp]; exact him) (by rw [hcp]; exact himN)
    simpa [List.foldl_cons] using h

theorem takeWhile_of_all {p : Char → Bool} {l : List Char} (h : l.all p = true) :
    l.takeWhile p = l := by
  induction l with
  | nil => rfl
  | cons c cs ih =>
    simp only [List.all_cons, Bool.and_eq_true] at h
    simp [List.takeWhile, h.1, ih h.2]

/-! ## Claim C1 -/

/-- Claim C1, as stated, is false: on a `_when` column with DESCENDING
direction the clause rendered by `cook_order_clause` via
`add_expression invert_nulls_first:=True` is `DESC NULLS LAST`, which places
nulls AFTER all non-null values in the emitted ordering — nulls do not precede
the non-null values for the `"-field"` input. -/
theorem claim_C1_counterexample :
    ObjectManager_cook_order_clause (some "-obj.classif_when") ⟨[]⟩ =
      .ok (some ⟨["obh.classif_when DESC NULLS LAST", "obh.objid DESC"],
                 ["obh.classif_when", "obh.objid"]⟩) ∧
    nulls_sort_first_in "obh.classif_when DESC NULLS LAST" = false :=
  ⟨rfl, by decide⟩

/-- Claim C1, amended: for every order field resolving to a column whose name
contains `"_when"`, `cook_order_clause` renders the primary sort key with
`ASC NULLS FIRST` for the `"field"` input and with `DESC NULLS LAST` for the
`"-field"` input: nulls are treated as smaller than every non-null value, so
they precede all non-null values in the ascending output but follow them all
in the descending output. -/
theorem claim_C1_when_null_ordering (m : TableMapping) (f e tbl col : String)
    (hdash : f.data.head? ≠ some '-')
    (hres : ObjectBO_field_to_db_col f m = some e)
    (hsp : pySplit1 e = some (tbl, col))
    (hwhen : pyInS "_when" col = true) :
    (∃ oc, ObjectManager_cook_order_clause (some f) m = .ok (some oc) ∧
        oc.expressions.head? = some (tbl ++ "." ++ col ++ " ASC NULLS FIRST")) ∧
    (∃ oc, ObjectManager_cook_order_clause (some ("-" ++ f)) m = .ok (some oc) ∧
        oc.expressions.head? = some (tbl ++ "." ++ col ++ " DESC NULLS LAST")) ∧
    nulls_sort_first_in "ASC NULLS FIRST" = true ∧
    nulls_sort_first_in "DESC NULLS LAST" = false := by
  refine ⟨?_, ?_, by decide, by decide⟩
  · rcases hfd : f.data with _ | ⟨c, cs⟩
    · exfalso
      simp [ObjectBO_field_to_db_col, pySplit1, pySplit1Aux, String.toList, hfd] at hres
    · have hc : ¬ c = '-' := by
        rw [hfd] at hdash
        simpa using hdash
      have hcall : ObjectBO_field_to_db_col (if c = '-' then String.mk cs else f) m
          = some e := by
        rw [if_neg hc]
        exact hres
      simp only [ObjectManager_cook_order_clause, String.toList, hfd, hcall, hsp]
      refine ⟨_, rfl, ?_⟩
      by_cases hobf : tbl = "obf"
      · simp [hobf, OrderClause.new, OrderClause.add_expression, hwhen, hc, str_app_asc]
      · by_cases hid : "obh.objid" = tbl ++ "." ++ col
        · simp [hobf, hid, OrderClause.new, OrderClause.add_expression,
            OrderClause.referenced_columns, hwhen, hc, str_app_asc]
        · simp [hobf, hid, OrderClause.new, OrderClause.add_expression,
            OrderClause.referenced_columns, hwhen, hc, str_app_asc]
  · have hd : ("-" ++ f).data = '-' :: f.data := by
      rw [String.data_append]
      rfl
    have hmk : String.mk f.data = f := rfl
    simp only [ObjectManager_cook_order_clause, String.toList, hd]
    simp only [reduceIte, hmk, hres, hsp]
    refine ⟨_, rfl, ?_⟩
    by_cases hobf : tbl = "obf"
    · simp [hobf, OrderClause.new, OrderClause.add_expression, hwhen, str_app_desc]
    · by_cases hid : "obh.objid" = tbl ++ "." ++ col
      · simp [hobf, hid, OrderClause.new, OrderClause.add_expression,
          OrderClause.referenced_columns, hwhen, str_app_desc]
      · simp [hobf, hid, OrderClause.new, OrderClause.add_expression,
          OrderClause.referenced_columns, hwhen, str_app_desc]

/-- Witness for the amended C1 theorem at the concrete order field
`obj.classif_when` with an empty free-column mapping. -/
theorem claim_C1_when_null_ordering_witness :
    (∃ oc, ObjectManager_cook_order_clause (some "obj.classif_when") ⟨[]⟩
        = .ok (some oc) ∧
      oc.expressions.head?
        = some ("obh" ++ "." ++ "classif_when" ++ " ASC NULLS FIRST")) ∧
    (∃ oc, ObjectManager_cook_order_clause (some ("-" ++ "obj.classif_when")) ⟨[]⟩
        = .ok (some oc) ∧
      oc.expressions.head?
        = some ("obh" ++ "." ++ "classif_when" ++ " DESC NULLS LAST")) ∧
    nulls_sort_first_in "ASC NULLS FIRST" = true ∧
    nulls_sort_first_in "DESC NULLS LAST" = false :=
  claim_C1_when_null_ordering ⟨[]⟩ "obj.classif_when" "obh.classif_when"
    "obh" "classif_when" (by decide) rfl rfl (by decide)

/-! ## Claim C2 -/

/-- Claim C2: every successfully cooked ORDER BY clause carries a deterministic
secondary sort key right after the caller's field: `obf.objfid` when the
primary expression comes from the free-fields table (alias `obf`), otherwise
`obh.objid` — except when `obh.objid` is itself the primary key, in which case
the clause is just that single column. -/
theorem claim_C2_order_tiebreak (f0 : String) (m : TableMapping) (oc : OrderClause)
    (h : ObjectManager_cook_order_clause (some f0) m = .ok (some oc)) :
    ∃ tbl col, oc.columns.head? = some (tbl ++ "." ++ col) ∧
      (if tbl = "obf" then oc.columns = [tbl ++ "." ++ col, "obf.objfid"]
       else if tbl ++ "." ++ col = "obh.objid" then oc.columns = ["obh.objid"]
       else oc.columns = [tbl ++ "." ++ col, "obh.objid"]) := by
  rcases hf : f0.data with _ | ⟨c, cs⟩
  · simp [ObjectManager_cook_order_clause, hf] at h
  · rcases hr : ObjectBO_field_to_db_col (if c = '-' then String.mk cs else f0) m
      with _ | e
    · simp [ObjectManager_cook_order_clause, hf, hr] at h
    · rcases hsp : pySplit1 e with _ | ⟨tbl, col⟩
      · simp [ObjectManager_cook_order_clause, hf, hr, hsp] at h
      · simp only [ObjectManager_cook_order_clause, String.toList, hf, hr, hsp,
          Except.ok.injEq, Option.some.injEq] at h
        subst h
        refine ⟨tbl, col, ?_⟩
        by_cases hobf : tbl = "obf"
        · simp [hobf, OrderClause.new, OrderClause.add_expression]
        · by_cases hid : tbl ++ "." ++ col = "obh.objid"
          · simp [hobf, hid, OrderClause.new, OrderClause.add_expression,
              OrderClause.referenced_columns]
          · rw [if_neg hobf, if_neg hid]
            have hid2 : ¬ ("obh.objid" = tbl ++ "." ++ col) := fun hx => hid hx.symm
            simp [hobf, hid2, OrderClause.new, OrderClause.add_expression,
              OrderClause.referenced_columns]

/-- Witness for C2 at the free-column order field `fre.area` mapped to storage
column `n01`. -/
theorem claim_C2_order_tiebreak_witness :
    ∃ tbl col,
      (OrderClause.mk ["obf.n01 ASC", "obf.objfid ASC"]
        ["obf.n01", "obf.objfid"]).columns.head? = some (tbl ++ "." ++ col) ∧
      (if tbl = "obf" then
        (OrderClause.mk ["obf.n01 ASC", "obf.objfid ASC"]
          ["obf.n01", "obf.objfid"]).columns = [tbl ++ "." ++ col, "obf.objfid"]
       else if tbl ++ "." ++ col = "obh.objid" then
        (OrderClause.mk ["obf.n01 ASC", "obf.objfid ASC"]
          ["obf.n01", "obf.objfid"]).columns = ["obh.objid"]
       else
        (OrderClause.mk ["obf.n01 ASC", "obf.objfid ASC"]
          ["obf.n01", "obf.objfid"]).columns = [tbl ++ "." ++ col, "obh.objid"]) :=
  claim_C2_order_tiebreak "fre.area" ⟨[("area", "n01")]⟩
    ⟨["obf.n01 ASC", "obf.objfid ASC"], ["obf.n01", "obf.objfid"]⟩ rfl

/-! ## Claim C3 -/

/-- Claim C3, as stated, is false: the character class of `USER_PWD_REGEXP` is
`[!@#?%^&*-+]`, in which `*-+` is a range — `-` is NOT a special character for
the check (`+` is), so a password whose only special character is `-` is
rejected, while one whose only special character is `+` is accepted. -/
theorem claim_C3_counterexample :
    UserBO_is_strong_password "Zzzz1111-" = false ∧
    UserBO_is_strong_password "Zzzz1111+" = true ∧
    isPwdSpecial '-' = false ∧ isPwdSpecial '+' = true := by
  refine ⟨by decide, by decide, by decide, by decide⟩

/-- Claim C3, amended: over newline-free strings, `is_strong_password` accepts
exactly the strings of 8 to 20 characters containing at least one lowercase
letter, one uppercase letter, one digit and one character of the set
`!@#?%^&*+` (the regex class `[!@#?%^&*-+]`, whose `*-+` is a range: `+` is in
the set, `-` is not); the spec's sample strings behave as stated. -/
theorem claim_C3_password_rule (s : String)
    (hnl : s.toList.all (fun c => c != '\n') = true) :
    (UserBO_is_strong_password s = true ↔
      ((∃ c ∈ s.toList, isAsciiLower c = true) ∧
       (∃ c ∈ s.toList, isAsciiUpper c = true) ∧
       (∃ c ∈ s.toList, isAsciiDigit c = true) ∧
       (∃ c ∈ s.toList, isPwdSpecial c = true) ∧
       8 ≤ s.toList.length ∧ s.toList.length ≤ 20)) ∧
    UserBO_is_strong_password "zero6" = false ∧
    UserBO_is_strong_password "abc" = false ∧
    UserBO_is_strong_password "" = false ∧
    UserBO_is_strong_password "Zzzza?123" = true ∧
    UserBO_is_strong_password "ZzzzA?123" = true := by
  refine ⟨?_, by decide, by decide, by decide, by decide, by decide⟩
  have ht : s.toList.takeWhile (fun c => c != '\n') = s.toList := takeWhile_of_all hnl
  have hlast : (s.toList.getLast? == some '\n') = false := by
    cases hgl : s.toList.getLast? with
    | none => rfl
    | some a =>
      have ha : a ∈ s.toList := List.mem_of_mem_getLast? hgl
      have hne := List.all_eq_true.mp hnl a ha
      simp only [beq_eq_false_iff_ne, ne_eq, Option.some.injEq]
      intro hcon
      subst hcon
      simp at hne
  simp only [UserBO_is_strong_password, lookaheadDotStar, ht, dotRange8to20ToEnd,
    hlast, hnl, Bool.and_eq_true, Bool.or_eq_true, decide_eq_true_eq,
    List.any_eq_true, Bool.and_true, Bool.and_false, Bool.false_and,
    Bool.or_false, Bool.and_self]
  tauto

/-- Witness for the amended C3 theorem at the accepted password `Zzzza?123`. -/
theorem claim_C3_password_rule_witness :
    (UserBO_is_strong_password "Zzzza?123" = true ↔
      ((∃ c ∈ "Zzzza?123".toList, isAsciiLower c = true) ∧
       (∃ c ∈ "Zzzza?123".toList, isAsciiUpper c = true) ∧
       (∃ c ∈ "Zzzza?123".toList, isAsciiDigit c = true) ∧
       (∃ c ∈ "Zzzza?123".toList, isPwdSpecial c = true) ∧
       8 ≤ "Zzzza?123".toList.length ∧ "Zzzza?123".toList.length ≤ 20)) ∧
    UserBO_is_strong_password "zero6" = false ∧
    UserBO_is_strong_password "abc" = false ∧
    UserBO_is_strong_password "" = false ∧
    UserBO_is_strong_password "Zzzza?123" = true ∧
    UserBO_is_strong_password "ZzzzA?123" = true :=
  claim_C3_password_rule "Zzzza?123" (by decide)

/-! ## Claim C4 -/

/-- Claim C4: `merge_mru` returns at most `NB_MRU_KEPT` (10) ids; the ids
drawn from `incoming` form a prefix of the result (every incoming id precedes
every id occurring only in `before`), and within that prefix the incoming ids
are ordered most-recent-first (strictly decreasing last-use position in
`incoming`). -/
theorem claim_C4_mru_merge (before incoming : List Int) (hne : incoming ≠ []) :
    (UserBO_merge_mru before incoming).length ≤ UserBO_NB_MRU_KEPT ∧
    ∃ newly older,
      UserBO_merge_mru before incoming = newly ++ older ∧
      (∀ x ∈ newly, x ∈ incoming) ∧
      (∀ x ∈ older, x ∉ incoming) ∧
      newly.Pairwise (fun a b => lastIdxIn incoming b < lastIdxIn incoming a) := by
  clear hne
  have hbefN : (dictKeys (before.enum.foldl
      (fun d p => pyDictAssign d p.2 ((p.1 : Int) + 1)) [])).Nodup :=
    dictKeys_foldAssign_nodup (fun p => p.2) (fun p => (p.1 : Int) + 1) before.enum []
      (by simp [dictKeys])
  have hincN : (dictKeys (incoming.enum.foldl
      (fun d p => pyDictAssign d p.2 (-(p.1 : Int))) [])).Nodup :=
    dictKeys_foldAssign_nodup (fun p => p.2) (fun p => -(p.1 : Int)) incoming.enum []
      (by simp [dictKeys])
  set bef_tbl := before.enum.foldl (fun d p => pyDictAssign d p.2 ((p.1 : Int) + 1))
    ([] : List (Int × Int)) with hbefdef
  set inc_tbl := incoming.enum.foldl (fun d p => pyDictAssign d p.2 (-(p.1 : Int)))
    ([] : List (Int × Int)) with hincdef
  have hbefL : ∀ q, dictLookup bef_tbl q
      = if q ∈ before then some ((lastIdxIn before q : Int) + 1) else none := by
    intro q
    have h := dictLookup_enumFoldFrom (fun n => (n : Int) + 1) before [] 0 q
    rw [show List.enumFrom 0 before = before.enum from rfl] at h
    simpa using h
  have hincL : ∀ q, dictLookup inc_tbl q
      = if q ∈ incoming then some (-(lastIdxIn incoming q : Int)) else none := by
    intro q
    have h := dictLookup_enumFoldFrom (fun n => -(n : Int)) incoming [] 0 q
    rw [show List.enumFrom 0 incoming = incoming.enum from rfl] at h
    simpa using h
  set merged := inc_tbl.foldl (fun d p => pyDictAssign d p.1 p.2) bef_tbl with hmdef
  have hmergedN : (dictKeys merged).Nodup :=
    dictKeys_foldAssign_nodup (fun p => p.1) (fun p => p.2) inc_tbl bef_tbl hbefN
  have hkeysinc : ∀ q, q ∈ dictKeys inc_tbl ↔ q ∈ incoming := by
    intro q
    rw [← dictLookup_isSome_iff, hincL q]
    by_cases hq : q ∈ incoming <;> simp [hq]
  have hmergedL : ∀ q, dictLookup merged q
      = if q ∈ incoming then some (-(lastIdxIn incoming q : Int))
        else if q ∈ before then some ((lastIdxIn before q : Int) + 1) else none := by
    intro q
    rw [hmdef, dictLookup_updateFold inc_tbl bef_tbl q hincN]
    by_cases hq : q ∈ incoming
    · rw [if_pos ((hkeysinc q).mpr hq), hincL q, if_pos hq, if_pos hq]
    · rw [if_neg (fun hc => hq ((hkeysinc q).mp hc)), hbefL q, if_neg hq]
  set s := merged.mergeSort (fun a b => decide (a.2 ≤ b.2)) with hsdef
  have hperm : s.Perm merged := List.mergeSort_perm merged _
  have hsorted : List.Pairwise (fun a b : Int × Int => a.2 ≤ b.2) s := by
    have h := @List.sorted_mergeSort (Int × Int)
      (fun a b : Int × Int => decide (a.2 ≤ b.2))
      (fun a b c hab hbc => by
        simp only [decide_eq_true_eq] at hab hbc ⊢
        omega)
      (fun a b => by
        simp only [Bool.or_eq_true, decide_eq_true_eq]
        omega)
      merged
    exact h.imp (fun hab => of_decide_eq_true hab)
  have hsnodup : (s.map (fun p : Int × Int => p.1)).Nodup :=
    ((hperm.map (fun p : Int × Int => p.1)).nodup_iff).mpr hmergedN
  have hval : ∀ pr ∈ s,
      (pr.1 ∈ incoming ∧ pr.2 = -(lastIdxIn incoming pr.1 : Int)) ∨
      (pr.1 ∉ incoming ∧ pr.1 ∈ before ∧ pr.2 = (lastIdxIn before pr.1 : Int) + 1) := by
    intro pr hpr
    have hm : pr ∈ merged := hperm.subset hpr
    have hl := dictLookup_of_mem merged hmergedN pr hm
    rw [hmergedL pr.1] at hl
    by_cases h1 : pr.1 ∈ incoming
    · rw [if_pos h1] at hl
      exact Or.inl ⟨h1, (Option.some.inj hl).symm⟩
    · rw [if_neg h1] at hl
      by_cases h2 : pr.1 ∈ before
      · rw [if_pos h2] at hl
        exact Or.inr ⟨h1, h2, (Option.some.inj hl).symm⟩
      · rw [if_neg h2] at hl
        exact absurd hl (by simp)
  have hret : UserBO_merge_mru before incoming
      = (s.map (fun p => p.1)).take UserBO_NB_MRU_KEPT := rfl
  set p := fun pr : Int × Int => decide (pr.2 ≤ 0) with hpdef
  set A := s.takeWhile p with hAdef
  set B := s.dropWhile p with hBdef
  have hAB : A ++ B = s := List.takeWhile_append_dropWhile p s
  have hAmem : ∀ pr ∈ A, pr ∈ s := fun pr hpr => (List.takeWhile_sublist p).subset hpr
  have hBmem : ∀ pr ∈ B, pr ∈ s := fun pr hpr => (List.dropWhile_sublist p).subset hpr
  have hAinc : ∀ pr ∈ A, pr.1 ∈ incoming := by
    intro pr hpr
    have hp := List.mem_takeWhile_imp hpr
    rw [hpdef] at hp
    have hle : pr.2 ≤ 0 := of_decide_eq_true hp
    rcases hval pr (hAmem pr hpr) with ⟨h1, _⟩ | ⟨_, _, hv⟩
    · exact h1
    · exfalso
      rw [hv] at hle
      have h0 : (0 : Int) ≤ (lastIdxIn before pr.1 : Int) := Int.ofNat_nonneg _
      omega
  have hBnot : ∀ pr ∈ B, pr.1 ∉ incoming := by
    cases hB : B with
    | nil =>
      intro pr hpr
      simp at hpr
    | cons b0 rest =>
      intro pr hpr
      have hs : pr ∈ s := hBmem pr (by rw [hB]; exact hpr)
      have hb0 : p b0 = false :=
        dropWhile_head_not p s b0 rest (hBdef.symm.trans hB)
      have hBpair : List.Pairwise (fun a b : Int × Int => a.2 ≤ b.2) (b0 :: rest) := by
        have hp := List.Pairwise.sublist (List.dropWhile_sublist p) hsorted
        rw [hBdef.symm.trans hB] at hp
        exact hp
      have hge : b0.2 ≤ pr.2 := by
        rcases List.mem_cons.mp hpr with rfl | hr
        · exact le_refl _
        · exact (List.pairwise_cons.mp hBpair).1 pr hr
      have hb0pos : ¬ (b0.2 ≤ 0) := by
        rw [hpdef] at hb0
        simpa using hb0
      rcases hval pr hs with ⟨_, hv⟩ | ⟨hnotinc, _, _⟩
      · exfalso
        rw [hv] at hge
        have h0 : (0 : Int) ≤ (lastIdxIn incoming pr.1 : Int) := Int.ofNat_nonneg _
        omega
      · exact hnotinc
  have hApair : List.Pairwise
      (fun a b : Int × Int => lastIdxIn incoming b.1 < lastIdxIn incoming a.1) A := by
    have h1 : List.Pairwise (fun a b : Int × Int => a.2 ≤ b.2) A :=
      List.Pairwise.sublist (List.takeWhile_sublist p) hsorted
    have h2 : List.Pairwise (fun a b : Int × Int => a.1 ≠ b.1) A :=
      List.Pairwise.sublist (List.takeWhile_sublist p) (List.pairwise_map.mp hsnodup)
    apply List.Pairwise.imp_of_mem _ (h1.and h2)
    intro a b ha hb hab
    obtain ⟨hle, hne2⟩ := hab
    have hainc := hAinc a ha
    have hbinc := hAinc b hb
    rcases hval a (hAmem a ha) with ⟨_, hva⟩ | ⟨hna, _, _⟩
    · rcases hval b (hAmem b hb) with ⟨_, hvb⟩ | ⟨hnb, _, _⟩
      · rw [hva, hvb] at hle
        have hlenat : lastIdxIn incoming b.1 ≤ lastIdxIn incoming a.1 := by omega
        have hnenat : lastIdxIn incoming b.1 ≠ lastIdxIn incoming a.1 := by
          intro hc
          exact hne2 (lastIdxIn_inj incoming b.1 a.1 hbinc hainc hc).symm
        omega
      · exact absurd hbinc hnb
    · exact absurd hainc hna
  refine ⟨?_, ((A.map (fun p => p.1)).take UserBO_NB_MRU_KEPT),
    ((B.map (fun p => p.1)).take (UserBO_NB_MRU_KEPT - (A.map (fun p : Int × Int => p.1)).length)),
    ?_, ?_, ?_, ?_⟩
  · rw [hret]
    exact List.length_take_le _ _
  · rw [hret, ← hAB, List.map_append, List.take_append_eq_append_take]
  · intro x hx
    rcases List.mem_map.mp (List.take_subset _ _ hx) with ⟨pr, hpr, rfl⟩
    exact hAinc pr hpr
  · intro x hx
    rcases List.mem_map.mp (List.take_subset _ _ hx) with ⟨pr, hpr, rfl⟩
    exact hBnot pr hpr
  · exact List.Pairwise.sublist (List.take_sublist _ _) (List.pairwise_map.mpr hApair)

/-- Witness for C4 at `before = [1, 2]`, `incoming = [10, 20]` (the result is
`[20, 10, 1, 2]`). -/
theorem claim_C4_mru_merge_witness :
    (UserBO_merge_mru [1, 2] [10, 20]).length ≤ UserBO_NB_MRU_KEPT ∧
    ∃ newly older,
      UserBO_merge_mru [1, 2] [10, 20] = newly ++ older ∧
      (∀ x ∈ newly, x ∈ [(10 : Int), 20]) ∧
      (∀ x ∈ older, x ∉ [(10 : Int), 20]) ∧
      newly.Pairwise (fun a b => lastIdxIn [10, 20] b < lastIdxIn [10, 20] a) :=
  claim_C4_mru_merge [1, 2] [10, 20] (by decide)

/-! ## Claim C5 -/

/-- Claim C5 marks a code bug: `MailProvider.__init__` never sets
`self.senderaccount` when the account is absent or invalid, so `send_mail`
raises `AttributeError` instead of silently returning; and the `HTTPException`
for an invalid recipient address is constructed but never raised, so with a
working SMTP dialogue `send_mail` returns normally on a non-email recipient
instead of raising HTTP 422. -/
theorem claim_C5_mail_divergence :
    MailProvider_send_mail (MailProvider_init [] "assist@mail.com")
      "user@mail.com" "hello" .delivered = .attributeError ∧
    (MailProvider_init [] "assist@mail.com").senderaccount = none ∧
    MailProvider_is_email "not-an-email" = false ∧
    MailProvider_send_mail
      (MailProvider_init ["a@mail.com", "pwd", "smtp.mail.com", "465"]
        "assist@mail.com")
      "not-an-email" "hello" .delivered = .sentOk ∧
    MailProvider_send_mail
      (MailProvider_init ["a@mail.com", "pwd", "smtp.mail.com", "465"]
        "assist@mail.com")
      "user@mail.com" "hello" .otherError =
      .http422 ("mail not sent from:" ++ "a@mail.com" ++ " to:" ++ "user@mail.com"
        ++ " message:" ++ "hello") := by
  refine ⟨by decide, by decide, by decide, by decide, ?_⟩
  rfl

/-! ## Claim C6 -/

/-- Claim C6: anonymous calls to `query` and `summary` on a publicly readable
project force `statusfilter` to `"V"`, so two input filter dicts that differ
only in their `statusfilter` value produce identical results — whatever the
downstream query machinery does with the effective filters. -/
theorem claim_C6_anonymous_forced_validated (R : Type)
    (anonymous_wants : Int → Option Int)
    (user_wants : Int → Int → Option (Int × Int))
    (restq rests : Int → Int → ProjectFiltersDict → R)
    (proj_id : Int) (f1 f2 : ProjectFiltersDict)
    (hpub : (anonymous_wants proj_id).isSome = true)
    (hdiff : ∀ k, k ≠ "statusfilter" → f1 k = f2 k) :
    ObjectManager_query_model R anonymous_wants user_wants restq none proj_id f1 =
      ObjectManager_query_model R anonymous_wants user_wants restq none proj_id f2 ∧
    ObjectManager_summary_model R anonymous_wants user_wants rests none proj_id f1 =
      ObjectManager_summary_model R anonymous_wants user_wants rests none proj_id f2 := by
  have hset : pyFiltersAssign f1 "statusfilter" "V"
      = pyFiltersAssign f2 "statusfilter" "V" := by
    funext q
    by_cases hq : q = "statusfilter"
    · simp [pyFiltersAssign, hq]
    · simp [pyFiltersAssign, hq, hdiff q hq]
  cases haw : anonymous_wants proj_id with
  | none => rw [haw] at hpub; simp at hpub
  | some prj =>
    constructor
    · simp only [ObjectManager_query_model, haw, hset]
    · simp only [ObjectManager_summary_model, haw, hset]

/-- Witness for C6, comparing an empty filter dict with one carrying
`statusfilter = "P"`, observed through a downstream that returns the effective
`statusfilter`. -/
theorem claim_C6_anonymous_forced_validated_witness :
    ObjectManager_query_model (Option String) (fun _ => some 1)
        (fun _ _ => none) (fun _ _ f => f "statusfilter") none 1 (fun _ => none) =
      ObjectManager_query_model (Option String) (fun _ => some 1)
        (fun _ _ => none) (fun _ _ f => f "statusfilter") none 1
        (pyFiltersAssign (fun _ => none) "statusfilter" "P") ∧
    ObjectManager_summary_model (Option String) (fun _ => some 1)
        (fun _ _ => none) (fun _ _ f => f "statusfilter") none 1 (fun _ => none) =
      ObjectManager_summary_model (Option String) (fun _ => some 1)
        (fun _ _ => none) (fun _ _ f => f "statusfilter") none 1
        (pyFiltersAssign (fun _ => none) "statusfilter" "P") :=
  claim_C6_anonymous_forced_validated (Option String) (fun _ => some 1)
    (fun _ _ => none) (fun _ _ f => f "statusfilter") (fun _ _ f => f "statusfilter")
    1 (fun _ => none) (pyFiltersAssign (fun _ => none) "statusfilter" "P")
    rfl (fun k hk => by simp [pyFiltersAssign, hk])

/-! ## Claim C7 -/

/-- C7: refinement/equivalence of the incremental taxonomy-statistics path
with the full recompute. Starting from any object table whose `objid` values
are distinct (the primary key) with a freshly recomputed `projects_taxo_stat`
content, after any sequence of classification batches — each batch collating
its per-taxon signed deltas through `ObjectManager.count_in_and_out` and
applying them through `ProjectBO.incremental_update_taxo_stats` (inserting
rows for never-seen taxa, adding the `{n, V, D, P}` deltas, deleting a row
whose count reaches zero, unclassified mapped to id `-1`) — the resulting
stat rows are a permutation of (i.e. the same table content as) a full
`ProjectBO.update_taxo_stats` recompute over the final object table. -/
theorem claim_C7_incremental_equals_full (objs0 : List ObjRow)
    (batches : List (List ClassifUpd))
    (hnd : (objs0.map (fun o => o.objid)).Nodup) :
    ((runClassifications objs0 batches).2).Perm
      (ProjectBO_update_taxo_stats ((runClassifications objs0 batches).1)) := by
  have h0pts : ∀ c, ptsFind (ProjectBO_update_taxo_stats objs0) c
      = statsOf objs0 c := by
    intro c
    rw [ProjectBO_update_taxo_stats]
    exact ptsFind_groupStatRows objs0 c
  have h0N : ((ProjectBO_update_taxo_stats objs0).map (fun r => r.id)).Nodup := by
    rw [ProjectBO_update_taxo_stats, groupStatRows_ids]
    exact List.nodup_dedup _
  obtain ⟨hfnd, hfind, hfN⟩ :=
    runFold_inv batches objs0 (ProjectBO_update_taxo_stats objs0) hnd h0pts h0N
  show ((batches.foldl classifyAndPropagate
      (objs0, ProjectBO_update_taxo_stats objs0)).2).Perm
    (ProjectBO_update_taxo_stats
      ((batches.foldl classifyAndPropagate
        (objs0, ProjectBO_update_taxo_stats objs0)).1))
  set st := batches.foldl classifyAndPropagate
    (objs0, ProjectBO_update_taxo_stats objs0) with hst
  have hfullN : ((ProjectBO_update_taxo_stats st.1).map (fun r => r.id)).Nodup := by
    rw [ProjectBO_update_taxo_stats, groupStatRows_ids]
    exact List.nodup_dedup _
  have hkey : ∀ c, ptsFind st.2 c = ptsFind (ProjectBO_update_taxo_stats st.1) c := by
    intro c
    rw [ProjectBO_update_taxo_stats, ptsFind_groupStatRows]
    exact hfind c
  rw [List.perm_ext_iff_of_nodup (List.Nodup.of_map _ hfN)
    (List.Nodup.of_map _ hfullN)]
  intro r
  constructor
  · intro hr
    have hsome := ptsFind_of_mem st.2 hfN r hr
    rw [hkey r.id] at hsome
    exact List.mem_of_find?_eq_some hsome
  · intro hr
    have hsome := ptsFind_of_mem _ hfullN r hr
    rw [← hkey r.id] at hsome
    exact List.mem_of_find?_eq_some hsome

/-- The C7 equivalence at a concrete history: two objects, one initially
unclassified and one Predicted as taxon 5, then a batch validating the first
as taxon 5. -/
theorem claim_C7_incremental_equals_full_witness :
    ((([⟨1, none, none⟩, ⟨2, some 5, some .P⟩] : List ObjRow).map
        (fun o => o.objid)).Nodup) ∧
    ((runClassifications [⟨1, none, none⟩, ⟨2, some 5, some .P⟩]
        [[⟨1, some 5, some .V⟩]]).2).Perm
      (ProjectBO_update_taxo_stats
        ((runClassifications [⟨1, none, none⟩, ⟨2, some 5, some .P⟩]
            [[⟨1, some 5, some .V⟩]]).1)) :=
  ⟨by decide,
   claim_C7_incremental_equals_full [⟨1, none, none⟩, ⟨2, some 5, some .P⟩]
     [[⟨1, some 5, some .V⟩]] (by decide)⟩

/-! ## Claim C8 -/

/-- Claim C8: `clean_old_jobs` cleans exactly the jobs created more than 30
days ago (whatever their state) plus the state-`"F"` jobs created more than 7
days ago; in particular of three jobs aged 31, 8 (successful) and 3 days,
exactly the first two are cleaned.  Job ids are positive (they come from a DB
sequence; the queries also guard on `id > 0`). -/
theorem claim_C8_clean_rule :
    (∀ (today : Int) (jobs : List DbJob) (j : DbJob),
      (jobs.map (fun x => x.id)).Nodup → j ∈ jobs → 0 < j.id →
      (j.id ∈ NightlyJobService_clean_old_jobs today jobs ↔
        (j.creation_date < today - 30 ∨
         (j.state = "F" ∧ j.creation_date < today - 7)))) ∧
    (∀ today : Int,
      NightlyJobService_clean_old_jobs today
        [⟨1, today - 31, "R"⟩, ⟨2, today - 8, "F"⟩, ⟨3, today - 3, "R"⟩]
        = [1, 2]) := by
  constructor
  · intro today jobs j hnd hj hid
    have hinj := List.inj_on_of_nodup_map hnd
    simp only [NightlyJobService_clean_old_jobs, List.mem_dedup, List.mem_append,
      List.mem_map, List.mem_filter, Bool.and_eq_true, decide_eq_true_eq,
      beq_iff_eq]
    constructor
    · rintro (⟨j2, ⟨hj2, _, hcd⟩, heq⟩ | ⟨j2, ⟨hj2, ⟨_, hcd⟩, hst⟩, heq⟩)
      · have : j2 = j := hinj hj2 hj heq
        subst this
        exact Or.inl hcd
      · have : j2 = j := hinj hj2 hj heq
        subst this
        exact Or.inr ⟨hst, hcd⟩
    · rintro (hcd | ⟨hst, hcd⟩)
      · exact Or.inl ⟨j, ⟨hj, hid, hcd⟩, rfl⟩
      · exact Or.inr ⟨j, ⟨hj, ⟨hid, hcd⟩, hst⟩, rfl⟩
  · intro today
    have h1 : today - 31 < today - 30 := by omega
    have h2 : ¬ (today - 8 < today - 30) := by omega
    have h3 : ¬ (today - 3 < today - 30) := by omega
    have h4 : today - 8 < today - 7 := by omega
    have h5 : ¬ (today - 3 < today - 7) := by omega
    have h6 : today - 31 < today - 7 := by omega
    simp [NightlyJobService_clean_old_jobs, List.filter, h1, h2, h3, h4, h5, h6,
      List.dedup]

/-- Witness for C8: the general rule applied to a single 100-day-old job at
`today = 1000`, and the 31/8/3-day example at `today = 0`. -/
theorem claim_C8_clean_rule_witness :
    (((5 : Int) ∈ NightlyJobService_clean_old_jobs 1000 [⟨5, 900, "R"⟩]) ↔
      ((900 : Int) < 1000 - 30 ∨ ("R" = "F" ∧ (900 : Int) < 1000 - 7))) ∧
    NightlyJobService_clean_old_jobs 0
      [⟨1, 0 - 31, "R"⟩, ⟨2, 0 - 8, "F"⟩, ⟨3, 0 - 3, "R"⟩] = [1, 2] :=
  ⟨claim_C8_clean_rule.1 1000 [⟨5, 900, "R"⟩] ⟨5, 900, "R"⟩ (by decide)
      (by decide) (by decide),
   claim_C8_clean_rule.2 0⟩

/-! ## Claim C9 -/

/-- Claim C9: `ObjectManager.delete` returns the four-tuple (objects deleted,
literal 0, image rows deleted, number of image files handed to the remover). -/
theorem claim_C9_delete_tuple (d : ObjectSetDeleteResult) :
    (ObjectManager_delete_result d).1 = d.nb_objs ∧
    (ObjectManager_delete_result d).2.1 = 0 ∧
    (ObjectManager_delete_result d).2.2.1 = d.nb_img_rows ∧
    (ObjectManager_delete_result d).2.2.2 = d.img_files.length :=
  ⟨rfl, rfl, rfl, rfl⟩

/-! ## Claim C10 -/

/-- Claim C10: `ProjectBO.delete_object_parents` returns exactly three
integers, the third always equal to the first: the deleted-acquisitions count
is appended twice, around the deleted-samples count. -/
theorem claim_C10_parents_counts (gone_acqs gone_sams : Int) :
    (ProjectBO_delete_object_parents gone_acqs gone_sams).length = 3 ∧
    (ProjectBO_delete_object_parents gone_acqs gone_sams)[2]? =
      (ProjectBO_delete_object_parents gone_acqs gone_sams)[0]? ∧
    ProjectBO_delete_object_parents gone_acqs gone_sams =
      [gone_acqs, gone_sams, gone_acqs] :=
  ⟨rfl, rfl, rfl⟩

end EcoTaxa
